import Mathlib

/-!
Verification of the discovery-and-enrichment core of the localhost-dashboard
repository: the port filter (`settings.ts` / `inConfiguredPorts`), the
dual-source listening-socket enumerator (`getListening`), the reconciliation
scanners (`Scanner.scan`, `AHKScanner.scan`), the CWD cache
(`getProcessCwd`), the metrics history buffers, and the health checker
(`HealthChecker`).

The embedding is shallow: JavaScript `Map` objects become association lists
with first-occurrence lookup and in-place update (the insertion-order
semantics of `Map.set` / `Map.get`), timestamps (`Date.now()`) become `Nat`
parameters, and asynchronous OS calls (`si.networkConnections`,
`si.processes`, `netstat`, `pidusage`, `readlink`/`wmic`) become explicit
inputs of each cycle: a successful call is an `Except.ok` carrying the data
the call returned, a thrown exception is an `Except.error`.  Regular
expressions whose output no claim depends on (`extractProjectPath`,
`extractAHKScriptPath`, the `netstat` line regex) are abstracted to
functions producing their extracted output.  CPU percentages and memory
byte counts are carried as `Nat` sample values; the code never computes
with them, it only stores and copies them.
-/

/-! ### Association-list embedding of JavaScript `Map` -/

/-- Embedding of `Map.get`: the value at the first entry whose key matches,
or `none`. -/
def mapLookup {κ α : Type} [DecidableEq κ] (m : List (κ × α)) (k : κ) : Option α :=
  match m with
  | [] => none
  | kv :: rest => if kv.1 = k then some kv.2 else mapLookup rest k

/-- Embedding of `Map.set`: replace the first entry whose key matches in
place, or append a new entry at the end (insertion order preserved). -/
def mapSet {κ α : Type} [DecidableEq κ] (m : List (κ × α)) (k : κ) (v : α) : List (κ × α) :=
  match m with
  | [] => [(k, v)]
  | kv :: rest => if kv.1 = k then (k, v) :: rest else kv :: mapSet rest k v

/-- The key list of a map, in iteration order. -/
def keysOf {κ α : Type} (m : List (κ × α)) : List κ := m.map Prod.fst

theorem mapLookup_set_self {κ α : Type} [DecidableEq κ] (m : List (κ × α)) (k : κ) (v : α) :
    mapLookup (mapSet m k v) k = some v := by
  induction m with
  | nil => simp [mapSet, mapLookup]
  | cons kv rest ih =>
    by_cases h : kv.1 = k
    · simp [mapSet, mapLookup, h]
    · simp [mapSet, mapLookup, h, ih]

theorem mapLookup_set_ne {κ α : Type} [DecidableEq κ] (m : List (κ × α)) (k k' : κ) (v : α)
    (h : k' ≠ k) : mapLookup (mapSet m k v) k' = mapLookup m k' := by
  have hk' : ¬(k = k') := fun hh => h hh.symm
  induction m with
  | nil => simp [mapSet, mapLookup, hk']
  | cons kv rest ih =>
    by_cases hk : kv.1 = k
    · subst hk
      simp [mapSet, mapLookup, hk']
    · simp [mapSet, mapLookup, hk, ih]

theorem mapLookup_isSome_iff {κ α : Type} [DecidableEq κ] (m : List (κ × α)) (k : κ) :
    (mapLookup m k).isSome ↔ k ∈ keysOf m := by
  induction m with
  | nil => simp [mapLookup, keysOf]
  | cons kv rest ih =>
    by_cases h : kv.1 = k
    · simp [mapLookup, keysOf, h]
    · have h' : ¬(k = kv.1) := fun hh => h hh.symm
      simp [mapLookup, keysOf, h, h'] at ih ⊢
      exact ih

theorem mem_of_mapLookup {κ α : Type} [DecidableEq κ] {m : List (κ × α)} {k : κ} {v : α}
    (h : mapLookup m k = some v) : (k, v) ∈ m := by
  induction m with
  | nil => simp [mapLookup] at h
  | cons kv rest ih =>
    by_cases hk : kv.1 = k
    · subst hk
      simp [mapLookup] at h
      subst h
      exact List.mem_cons_self _ _
    · simp [mapLookup, hk] at h
      exact List.mem_cons_of_mem _ (ih h)

theorem mapLookup_of_mem {κ α : Type} [DecidableEq κ] {m : List (κ × α)} {k : κ} {v : α}
    (hnd : (keysOf m).Nodup) (h : (k, v) ∈ m) : mapLookup m k = some v := by
  induction m with
  | nil => simp at h
  | cons kv rest ih =>
    rw [keysOf, List.map_cons, List.nodup_cons] at hnd
    rcases List.mem_cons.mp h with h1 | h1
    · subst h1
      simp [mapLookup]
    · have hne : kv.1 ≠ k := by
        intro he
        exact hnd.1 (he ▸ (List.mem_map_of_mem Prod.fst h1))
      simpa [mapLookup, hne] using ih hnd.2 h1

theorem mem_mapSet {κ α : Type} [DecidableEq κ] {m : List (κ × α)} {k : κ} {v : α} {kv : κ × α}
    (h : kv ∈ mapSet m k v) : kv ∈ m ∨ kv = (k, v) := by
  induction m with
  | nil =>
    simp [mapSet] at h
    right; exact h
  | cons hd rest ih =>
    by_cases hk : hd.1 = k
    · rw [mapSet] at h
      simp only [hk, if_pos] at h
      rcases List.mem_cons.mp h with h1 | h1
      · right; exact h1
      · left; exact List.mem_cons_of_mem _ h1
    · rw [mapSet] at h
      simp only [hk, if_neg, not_false_iff] at h
      rcases List.mem_cons.mp h with h1 | h1
      · left; exact h1 ▸ List.mem_cons_self _ _
      · rcases ih h1 with h2 | h2
        · left; exact List.mem_cons_of_mem _ h2
        · right; exact h2

theorem keysOf_mapSet_of_mem {κ α : Type} [DecidableEq κ] {m : List (κ × α)} {k : κ} (v : α)
    (h : k ∈ keysOf m) : keysOf (mapSet m k v) = keysOf m := by
  induction m with
  | nil => simp [keysOf] at h
  | cons kv rest ih =>
    by_cases hk : kv.1 = k
    · simp [mapSet, keysOf, hk]
    · have h' : ¬(k = kv.1) := fun hh => hk hh.symm
      rw [keysOf, List.map_cons, List.mem_cons] at h
      rcases h with h | h
      · exact absurd h h'
      · have ih' := ih h
        rw [mapSet]
        simp only [hk, if_neg, not_false_iff]
        simp only [keysOf, List.map_cons] at ih' ⊢
        rw [ih']

theorem keysOf_mapSet_of_not_mem {κ α : Type} [DecidableEq κ] {m : List (κ × α)} {k : κ} (v : α)
    (h : k ∉ keysOf m) : keysOf (mapSet m k v) = keysOf m ++ [k] := by
  induction m with
  | nil => simp [mapSet, keysOf]
  | cons kv rest ih =>
    rw [keysOf, List.map_cons, List.mem_cons] at h
    push_neg at h
    have hk : kv.1 ≠ k := fun hh => h.1 hh.symm
    have ih' := ih h.2
    rw [mapSet]
    simp only [hk, if_neg, not_false_iff]
    simp only [keysOf, List.map_cons] at ih' ⊢
    rw [ih', List.cons_append]

theorem nodup_keysOf_mapSet {κ α : Type} [DecidableEq κ] {m : List (κ × α)} {k : κ} (v : α)
    (h : (keysOf m).Nodup) : (keysOf (mapSet m k v)).Nodup := by
  by_cases hk : k ∈ keysOf m
  · rw [keysOf_mapSet_of_mem v hk]; exact h
  · rw [keysOf_mapSet_of_not_mem v hk]
    simpa [List.nodup_append] using ⟨h, hk⟩

theorem mapLookup_map_value {κ α β : Type} [DecidableEq κ] (m : List (κ × α)) (f : α → β) (k : κ) :
    mapLookup (m.map (fun kv => (kv.1, f kv.2))) k = (mapLookup m k).map f := by
  induction m with
  | nil => simp [mapLookup]
  | cons kv rest ih =>
    by_cases h : kv.1 = k
    · simp [mapLookup, h]
    · simp [mapLookup, h, ih]

theorem keysOf_map_value {κ α β : Type} (m : List (κ × α)) (f : α → β) :
    keysOf (m.map (fun kv => (kv.1, f kv.2))) = keysOf m := by
  induction m with
  | nil => rfl
  | cons kv rest ih =>
    simp only [keysOf, List.map_cons] at ih ⊢
    rw [ih]

/-! ### Configuration (`settings.ts`)

`AppSettings` restricted to the fields the scanning core reads:
`scanIntervalMs`, `ports` (explicit values and inclusive ranges) and
`scanAllPorts`.  Port values are JavaScript numbers, embedded as `Int`. -/

/-- One element of the `ports` setting: a plain number or an inclusive
`[number, number]` range. -/
inductive PortSpec : Type where
  | single (n : Int)
  | range (a b : Int)
deriving DecidableEq

/-- The configuration fields of `AppSettings` read during a scan cycle. -/
structure ScanCfg : Type where
  scanIntervalMs : Nat
  ports : List PortSpec
  scanAllPorts : Bool
deriving DecidableEq

/-- The boolean test `inConfiguredPorts` applies to one `ports` entry:
range containment for an `[a, b]` pair, equality for a plain number. -/
def portSpecTest (port : Int) (p : PortSpec) : Bool :=
  match p with
  | .range a b => decide (a ≤ port) && decide (port ≤ b)
  | .single n => decide (port = n)

/-- Embedding of `inConfiguredPorts` (scanner.ts): `scanAllPorts` bypasses
the filter; otherwise a linear search over the configured entries, ranges
inclusive on both ends. -/
def inConfiguredPorts (cfg : ScanCfg) (port : Int) : Bool :=
  if cfg.scanAllPorts then true
  else cfg.ports.any (portSpecTest port)

/-- The proposition a single `ports` entry tests. -/
def portSpecMatches (p : PortSpec) (port : Int) : Prop :=
  match p with
  | .range a b => a ≤ port ∧ port ≤ b
  | .single n => port = n

theorem portSpecTest_iff (port : Int) (p : PortSpec) :
    portSpecTest port p = true ↔ portSpecMatches p port := by
  cases p with
  | single n => simp [portSpecTest, portSpecMatches]
  | range a b => simp [portSpecTest, portSpecMatches]

theorem inConfiguredPorts_iff (cfg : ScanCfg) (port : Int) (hall : cfg.scanAllPorts = false) :
    inConfiguredPorts cfg port = true ↔ ∃ p ∈ cfg.ports, portSpecMatches p port := by
  unfold inConfiguredPorts
  rw [hall]
  simp only [Bool.false_eq_true, if_false, List.any_eq_true]
  constructor
  · rintro ⟨p, hp, hm⟩
    exact ⟨p, hp, (portSpecTest_iff port p).mp hm⟩
  · rintro ⟨p, hp, hm⟩
    exact ⟨p, hp, (portSpecTest_iff port p).mpr hm⟩

/-! ### String helpers

`String.prototype.toLowerCase`, `startsWith` and `includes` embedded over
the character data of the string (kernel-reducible). -/

/-- Embedding of JavaScript `toLowerCase()` (ASCII case folding as used on
the protocol/state/command strings involved). -/
def lowerStr (s : String) : String := String.mk (s.data.map Char.toLower)

/-- Embedding of `String.prototype.startsWith`. -/
def strStarts (s pre : String) : Bool := List.isPrefixOf pre.data s.data

/-- Helper for `strIncludes`: contiguous-sublist test on character lists. -/
def listHasInfix (sub : List Char) : List Char → Bool
  | [] => List.isPrefixOf sub ([] : List Char)
  | c :: cs => List.isPrefixOf sub (c :: cs) || listHasInfix sub cs

/-- Embedding of `String.prototype.includes`. -/
def strIncludes (s sub : String) : Bool := listHasInfix sub.data s.data

/-! ### Listening-socket enumerator (`getListening`, scanner.ts)

Source 1 is `si.networkConnections()`; source 2 is the Windows
`netstat -ano` dump.  A netstat line matching
`/^\s*TCP\S*\s+\S+:(\d+)\s+\S+\s+LISTENING\s+(\d+)/i` is abstracted to its
two extracted integers (local port, owning pid): a `NetstatEntry`. -/

/-- One connection record as reported by `si.networkConnections()`,
restricted to the fields `getListening` reads.  `localPort` embeds the
`localPort ?? localport` numeric field (`0` plays the role of the filtered
`<= 0` / non-numeric case, and `pid ?? 0` is pre-applied). -/
structure SIConn : Type where
  protocol : String
  state : String
  localPort : Nat
  pid : Nat
deriving DecidableEq

/-- The `SimpleConn` record type of scanner.ts. -/
structure SimpleConn : Type where
  protocol : String
  localPort : Nat
  pid : Nat
  state : String
deriving DecidableEq

/-- The (port, pid) pair extracted by the netstat line regex. -/
structure NetstatEntry : Type where
  port : Nat
  pid : Nat
deriving DecidableEq

/-- The `pid:port` composite key (template literal in the source). -/
def mkKey (pid port : Nat) : String := toString pid ++ ":" ++ toString port

/-- The filter `getListening` applies to a `si.networkConnections` record:
protocol starts with "tcp", state starts with "listen" (both lowercased),
and the local port is a positive number. -/
def siAccepts (c : SIConn) : Bool :=
  strStarts (lowerStr c.protocol) "tcp" && strStarts (lowerStr c.state) "listen"
    && decide (0 < c.localPort)

/-- The `SimpleConn` built from an accepted `si.networkConnections` record
(`c.protocol || "tcp"`, `c.state || "LISTENING"`). -/
def siConnOf (c : SIConn) : SimpleConn :=
  { protocol := if c.protocol = "" then "tcp" else c.protocol
    localPort := c.localPort
    pid := c.pid
    state := if c.state = "" then "LISTENING" else c.state }

/-- One step of the first loop of `getListening`: filter, then
`byKey.set(key, ...)` (unconditional overwrite). -/
def siStep (m : List (String × SimpleConn)) (c : SIConn) : List (String × SimpleConn) :=
  if siAccepts c then mapSet m (mkKey c.pid c.localPort) (siConnOf c) else m

/-- The `SimpleConn` built from a netstat line match. -/
def nsConnOf (en : NetstatEntry) : SimpleConn :=
  { protocol := "tcp", localPort := en.port, pid := en.pid, state := "LISTENING" }

/-- One step of the netstat loop of `getListening`: insert only when the
`pid:port` key is absent (`if (!byKey.has(key)) byKey.set(...)`). -/
def nsStep (m : List (String × SimpleConn)) (en : NetstatEntry) : List (String × SimpleConn) :=
  if (mapLookup m (mkKey en.pid en.port)).isSome then m
  else mapSet m (mkKey en.pid en.port) (nsConnOf en)

/-- The `byKey` map after processing the first source. -/
def siMap (siConns : List SIConn) : List (String × SimpleConn) :=
  siConns.foldl siStep []

/-- The `byKey` map after both sources (netstat only on win32). -/
def mergeMap (win32 : Bool) (siConns : List SIConn) (ns : List NetstatEntry) :
    List (String × SimpleConn) :=
  if win32 then ns.foldl nsStep (siMap siConns) else siMap siConns

/-- Embedding of `getListening` on already-fetched source data: seed from
`si.networkConnections`, then (on win32 only) merge netstat entries for
absent keys, and return the map's values. -/
def getListening (win32 : Bool) (siConns : List SIConn) (ns : List NetstatEntry) :
    List SimpleConn :=
  (mergeMap win32 siConns ns).map Prod.snd

/-- A failed source call (thrown exception / non-zero exit) is caught with
`catch { /* ignore */ }`, contributing nothing. -/
def sourceOrEmpty {α : Type} (r : Except String (List α)) : List α :=
  match r with
  | .ok l => l
  | .error _ => []

/-- Embedding of `getListening` as called in a cycle: each source either returned data
or threw; a thrown source is swallowed by its `catch` block. -/
def getListeningF (win32 : Bool) (siRes : Except String (List SIConn))
    (nsRes : Except String (List NetstatEntry)) : List SimpleConn :=
  getListening win32 (sourceOrEmpty siRes) (sourceOrEmpty nsRes)

/-- The first netstat entry carrying a given key, as a `SimpleConn`. -/
def nsFirst (ns : List NetstatEntry) (k : String) : Option SimpleConn :=
  (ns.find? (fun en => mkKey en.pid en.port = k)).map nsConnOf

theorem nsFold_lookup (ns : List NetstatEntry) (m : List (String × SimpleConn)) (k : String) :
    mapLookup (ns.foldl nsStep m) k = (mapLookup m k).or (nsFirst ns k) := by
  induction ns generalizing m with
  | nil =>
    simp [nsFirst]
  | cons en rest ih =>
    rw [List.foldl_cons]
    by_cases hk : mkKey en.pid en.port = k
    · subst hk
      rw [nsStep]
      by_cases hs : (mapLookup m (mkKey en.pid en.port)).isSome
      · rcases Option.isSome_iff_exists.mp hs with ⟨w, hw⟩
        simp only [hs, if_pos]
        rw [ih, hw]
        simp [nsFirst, Option.or]
      · have hn : mapLookup m (mkKey en.pid en.port) = none :=
          Option.not_isSome_iff_eq_none.mp hs
        simp only [hs, if_neg, Bool.false_eq_true, not_false_iff]
        rw [ih, mapLookup_set_self, hn]
        simp [nsFirst, Option.or]
    · have h1 : nsFirst (en :: rest) k = nsFirst rest k := by
        simp [nsFirst, List.find?, hk]
      rw [h1, nsStep]
      by_cases hs : (mapLookup m (mkKey en.pid en.port)).isSome
      · simp only [hs, if_pos]
        exact ih m
      · simp only [hs, if_neg, Bool.false_eq_true, not_false_iff]
        rw [ih, mapLookup_set_ne _ _ _ _ (fun hh => hk hh.symm)]

theorem siFold_lookup_isSome (si : List SIConn) (m : List (String × SimpleConn)) (k : String) :
    (mapLookup (si.foldl siStep m) k).isSome
      ↔ (mapLookup m k).isSome ∨ ∃ c ∈ si, siAccepts c = true ∧ mkKey c.pid c.localPort = k := by
  induction si generalizing m with
  | nil => simp
  | cons c rest ih =>
    rw [List.foldl_cons, siStep]
    by_cases ha : siAccepts c
    · simp only [ha, if_pos]
      rw [ih]
      by_cases hk : mkKey c.pid c.localPort = k
      · subst hk
        rw [mapLookup_set_self]
        simp [ha]
      · rw [mapLookup_set_ne _ _ _ _ (fun hh => hk hh.symm)]
        constructor
        · rintro (h | ⟨c', hc', hacc, hkey⟩)
          · exact Or.inl h
          · exact Or.inr ⟨c', List.mem_cons_of_mem _ hc', hacc, hkey⟩
        · rintro (h | ⟨c', hc', hacc, hkey⟩)
          · exact Or.inl h
          · rcases List.mem_cons.mp hc' with h1 | h1
            · exact absurd (h1 ▸ hkey) hk
            · exact Or.inr ⟨c', h1, hacc, hkey⟩
    · simp only [ha, Bool.false_eq_true, if_neg, not_false_iff]
      rw [ih]
      constructor
      · rintro (h | ⟨c', hc', hacc, hkey⟩)
        · exact Or.inl h
        · exact Or.inr ⟨c', List.mem_cons_of_mem _ hc', hacc, hkey⟩
      · rintro (h | ⟨c', hc', hacc, hkey⟩)
        · exact Or.inl h
        · rcases List.mem_cons.mp hc' with h1 | h1
          · exact absurd (h1 ▸ hacc) (by simpa using ha)
          · exact Or.inr ⟨c', h1, hacc, hkey⟩

/-! ### Scanner data model (scanner.ts) -/

/-- The `ServerInfo` record.  `cpuHistory` / `memoryHistory` start life
`undefined` in the source and are initialised to `[]` before first use
(`if (!rec.cpuHistory) rec.cpuHistory = []`), so they are embedded as
plain lists that start empty. -/
structure ServerInfo : Type where
  key : String
  pid : Nat
  port : Nat
  protocol : String
  processName : Option String
  command : Option String
  path : Option String
  cwd : Option String
  firstSeen : Nat
  lastSeen : Nat
  url : String
  cpu : Option Nat
  memory : Option Nat
  framework : Option String
  cpuHistory : List Nat
  memoryHistory : List Nat
deriving DecidableEq

/-- One process entry of `si.processes().list`, restricted to the fields
the scanner reads. -/
structure ProcData : Type where
  pid : Nat
  name : String
  command : String
  path : String
deriving DecidableEq

/-- A successful `pidusage(pid)` result. -/
structure Usage : Type where
  cpu : Nat
  memory : Nat
deriving DecidableEq

/-- The per-cycle outcome of the asynchronous enrichment calls:
`si.processes()` either returns a list or throws (propagating to the cycle
`catch`); `getProcessCwd` and `extractProjectPath` are abstracted to their
results (`getProcessCwd` swallows its own failures, so it is a total
function into `Option`); `pidusage(pid)` either succeeds or throws (the
scanner catches that throw per record). -/
structure ScanEnv : Type where
  procs : Except String (List ProcData)
  cwdOf : Nat → Option String
  extractPath : String → Option String
  usage : Nat → Option Usage

/-- Embedding of `guessFramework`: lower-cased concatenation of command and
name, then an ordered substring chain, first match wins. -/
def guessFramework (cmd pname : Option String) : Option String :=
  let s := lowerStr ((cmd.getD "") ++ " " ++ (pname.getD ""))
  if strIncludes s "vite" then some "Vite"
  else if strIncludes s "next" then some "Next.js"
  else if strIncludes s "nuxt" then some "Nuxt"
  else if strIncludes s "remix" then some "Remix"
  else if strIncludes s "astro" then some "Astro"
  else if strIncludes s "angular" || strIncludes s "ng " then some "Angular"
  else if strIncludes s "react-scripts" then some "CRA"
  else if strIncludes s "webpack-dev-server" then some "Webpack Dev Server"
  else if strIncludes s "uvicorn" then some "Uvicorn"
  else if strIncludes s "gunicorn" then some "Gunicorn"
  else if strIncludes s "django" then some "Django"
  else if strIncludes s "rails" then some "Rails"
  else if strIncludes s "dotnet" then some ".NET"
  else if strIncludes s "php" then some "PHP"
  else if strIncludes s "deno" then some "Deno"
  else if strIncludes s "go " || strIncludes s "go.exe" then some "Go"
  else if strIncludes s "autohotkey" then some "AutoHotkey"
  else none

/-! ### CWD cache (`getProcessCwd`, scanner.ts)

The platform introspection of the try block (wmic command-line extraction
on Windows, `readlink /proc/<pid>/cwd` on Unix; a failure is caught and
leaves `null`) is abstracted to a function `resolve : Nat → Option String`;
the cache logic is embedded verbatim. -/

/-- The `CWD_CACHE_TTL` constant (30 seconds). -/
def CWD_CACHE_TTL : Nat := 30000

/-- One `cwdCache` entry: the resolved directory (`none` = confirmed
absent) and the resolution timestamp. -/
structure CwdEntry : Type where
  cwd : Option String
  time : Nat
deriving DecidableEq

/-- Embedding of `getProcessCwd`.  Returns the looked-up directory, the
cache after the call, and whether the resolution steps ran (`false` on a
cache hit). -/
def getProcessCwd (resolve : Nat → Option String) (cache : List (Nat × CwdEntry))
    (now pid : Nat) : Option String × List (Nat × CwdEntry) × Bool :=
  match mapLookup cache pid with
  | some e =>
    if now - e.time < CWD_CACHE_TTL then (e.cwd, cache, false)
    else
      let c := resolve pid
      (c, mapSet cache pid ⟨c, now⟩, true)
  | none =>
    let c := resolve pid
    (c, mapSet cache pid ⟨c, now⟩, true)

/-! ### Reconciliation cycle (`Scanner.scan`, scanner.ts) -/

/-- The event channels a scanner emits, with their payloads. -/
inductive ScanEvent (α : Type) : Type where
  | new (r0 : α)
  | stopped (r0 : α)
  | update (payload : List α)
  | error (msg : String)
deriving DecidableEq

/-- The scanner's mutable state: the `items` map and `lastSnapshot`. -/
structure ScanState : Type where
  items : List (String × ServerInfo)
  lastSnapshot : List String
deriving DecidableEq

/-- The fresh record created on first observation of a key. -/
def freshRec (now : Nat) (c : SimpleConn) : ServerInfo :=
  { key := mkKey c.pid c.localPort
    pid := c.pid
    port := c.localPort
    protocol := if lowerStr c.protocol = "" then "tcp" else lowerStr c.protocol
    processName := none, command := none, path := none, cwd := none
    firstSeen := now, lastSeen := now
    url := "http://localhost:" ++ toString c.localPort
    cpu := none, memory := none, framework := none
    cpuHistory := [], memoryHistory := [] }

/-- The first loop of `scan`: walk the filtered connections, create a
record and fire `new` for unseen keys, refresh `lastSeen` for known ones;
also collect the cycle's raw key set (in order). -/
def upsert (now : Nat) : List SimpleConn → List (String × ServerInfo) →
    List (String × ServerInfo) × List String × List (ScanEvent ServerInfo)
  | [], items => (items, [], [])
  | c :: cs, items =>
    if c.pid = 0 ∨ c.localPort = 0 then upsert now cs items
    else
      match mapLookup items (mkKey c.pid c.localPort) with
      | none =>
        let r0 := freshRec now c
        let t := upsert now cs (mapSet items (mkKey c.pid c.localPort) r0)
        (t.1, mkKey c.pid c.localPort :: t.2.1, ScanEvent.new r0 :: t.2.2)
      | some old =>
        let t := upsert now cs
          (mapSet items (mkKey c.pid c.localPort) { old with lastSeen := now })
        (t.1, mkKey c.pid c.localPort :: t.2.1, t.2.2)

/-- The deletion test of the "remove stale" loop: absent from the cycle's
key set and last seen more than `scanIntervalMs * 2` ago. -/
def staleGone (cfg : ScanCfg) (now : Nat) (keys : List String)
    (kv : String × ServerInfo) : Bool :=
  !(decide (kv.1 ∈ keys)) && decide (cfg.scanIntervalMs * 2 < now - kv.2.lastSeen)

/-- The "remove stale" loop: delete every entry passing `staleGone`, firing
one `stopped` event per deletion (in iteration order). -/
def removeStale (cfg : ScanCfg) (now : Nat) (keys : List String)
    (items : List (String × ServerInfo)) :
    List (String × ServerInfo) × List (ScanEvent ServerInfo) :=
  (items.filter (fun kv => !(staleGone cfg now keys kv)),
   (items.filter (staleGone cfg now keys)).map (fun kv => ScanEvent.stopped kv.2))

/-- The `byPid` map built from `si.processes().list` (`Map.set` per entry,
later entries overwrite). -/
def byPidOf (l : List ProcData) : List (Nat × ProcData) :=
  l.foldl (fun m p => mapSet m p.pid p) []

/-- JavaScript falsiness of the `cwd` field (`!rec.cwd`): absent or the
empty string. -/
def strFalsy (c : Option String) : Bool :=
  match c with
  | none => true
  | some s => decide (s = "")

/-- Metrics sampling of one record: on a successful `pidusage` call store
the sample, append it to both history buffers and drop the oldest reading
once a buffer exceeds 6 entries; a thrown call (process exited) is caught
and leaves the record untouched. -/
def applyUsage (u : Option Usage) (r0 : ServerInfo) : ServerInfo :=
  match u with
  | none => r0
  | some usg =>
    let ch := r0.cpuHistory ++ [usg.cpu]
    let mh := r0.memoryHistory ++ [usg.memory]
    { r0 with
      cpu := some usg.cpu
      memory := some usg.memory
      cpuHistory := if 6 < ch.length then ch.tail else ch
      memoryHistory := if 6 < mh.length then mh.tail else mh }

/-- The enrichment loop body for one record: refresh metadata from the
process table entry (when present), resolve `cwd` only when still unset
(OS introspection first, command-line regex extraction as fallback), then
sample metrics. -/
def enrichRec (env : ScanEnv) (byPid : List (Nat × ProcData)) (r0 : ServerInfo) : ServerInfo :=
  match mapLookup byPid r0.pid with
  | none => r0
  | some p =>
    let r1 := { r0 with
      processName := some p.name
      command := some p.command
      path := some p.path
      framework := guessFramework (some p.command) (some p.name) }
    let r2 :=
      if strFalsy r1.cwd then
        match env.cwdOf r1.pid with
        | some c => { r1 with cwd := some c }
        | none => { r1 with cwd := env.extractPath p.command }
      else r1
    applyUsage (env.usage r2.pid) r2

/-- The filtered connection list of one cycle (`interested`). -/
def cycleConns (cfg : ScanCfg) (win32 : Bool) (siRes : Except String (List SIConn))
    (nsRes : Except String (List NetstatEntry)) : List SimpleConn :=
  (getListeningF win32 siRes nsRes).filter
    (fun c => inConfiguredPorts cfg (Int.ofNat c.localPort))

/-- Embedding of one `Scanner.scan` cycle: enumerate and filter, upsert,
remove stale entries, then (if `si.processes` succeeded) enrich every
surviving record and emit the port-sorted snapshot as the `update` event;
if `si.processes` threw, the cycle's `catch` fires the `error` event
instead (the map mutations already made stand, `lastSnapshot` is not
updated). -/
def scanStep (cfg : ScanCfg) (env : ScanEnv) (win32 : Bool) (now : Nat)
    (siRes : Except String (List SIConn)) (nsRes : Except String (List NetstatEntry))
    (st : ScanState) : ScanState × List (ScanEvent ServerInfo) :=
  let t := upsert now (cycleConns cfg win32 siRes nsRes) st.items
  let rs := removeStale cfg now t.2.1 t.1
  match env.procs with
  | .error e =>
    ({ items := rs.1, lastSnapshot := st.lastSnapshot },
     t.2.2 ++ rs.2 ++ [ScanEvent.error e])
  | .ok procList =>
    let byPid := byPidOf procList
    let items3 := rs.1.map (fun kv => (kv.1, enrichRec env byPid kv.2))
    let payload := List.insertionSort (fun a b => a.port ≤ b.port) (items3.map Prod.snd)
    ({ items := items3, lastSnapshot := t.2.1 },
     t.2.2 ++ rs.2 ++ [ScanEvent.update payload])

/-! ### AHK script scanner (ahk-scanner.ts)

The script-path regular expressions (`extractAHKScriptPath` and its WMIC
fallback `getScriptPathViaWMIC`) are abstracted to functions producing
their extracted path. -/

/-- The `AHKScriptInfo` record. -/
structure AHKScriptInfo : Type where
  key : String
  pid : Nat
  processName : String
  scriptPath : Option String
  scriptName : Option String
  firstSeen : Nat
  lastSeen : Nat
  cpu : Option Nat
  memory : Option Nat
deriving DecidableEq

/-- The `AHKProcess` record produced by `getAHKProcesses`. -/
structure AHKProcess : Type where
  pid : Nat
  name : String
  scriptPath : Option String
  scriptName : Option String
  command : Option String
deriving DecidableEq

/-- The per-cycle outcome of the AHK scanner's asynchronous calls. -/
structure AHKEnv : Type where
  procs : Except String (List ProcData)
  scriptPathOf : String → Option String
  wmicPathOf : Nat → Option String
  usage : Nat → Option Usage

/-- Splitting a character list at separator characters
(`String.prototype.split` on a character-class regex). -/
def splitChars (p : Char → Bool) : List Char → List (List Char)
  | [] => [[]]
  | c :: rest =>
    let r := splitChars p rest
    if p c then [] :: r
    else
      match r with
      | [] => [[c]]
      | h :: t => (c :: h) :: t

/-- Embedding of `extractFileName`: last path segment after splitting on
slashes and backslashes, falling back to the whole path when that segment
is empty. -/
def extractFileName (fp : String) : String :=
  let parts := splitChars (fun c => c == '/' || c == '\\') fp.data
  match parts.getLast? with
  | some last => if last.isEmpty then fp else String.mk last
  | none => fp

/-- Embedding of `getAHKProcesses`: empty off Windows; a thrown
`si.processes()` is caught (logged) and yields no processes; otherwise
filter process names containing "autohotkey" or "ahk" (lower-cased) and
attach the script path extracted from the command line, with the WMIC
lookup as fallback. -/
def getAHKProcesses (win32 : Bool) (env : AHKEnv) : List AHKProcess :=
  if !win32 then []
  else
    match env.procs with
    | .error _ => []
    | .ok list =>
      (list.filter (fun p =>
          strIncludes (lowerStr p.name) "autohotkey" || strIncludes (lowerStr p.name) "ahk")).map
        (fun p =>
          let fromCmd := if p.command = "" then none else env.scriptPathOf p.command
          let sp :=
            match fromCmd with
            | some s => some s
            | none => env.wmicPathOf p.pid
          { pid := p.pid, name := p.name
            scriptPath := sp, scriptName := sp.map extractFileName
            command := some p.command })

/-- The first loop of `AHKScanner.scan`: keys are the pid rendered as a
string; a known record refreshes `lastSeen` and the script fields. -/
def ahkUpsert (now : Nat) : List AHKProcess → List (String × AHKScriptInfo) →
    List (String × AHKScriptInfo) × List String × List (ScanEvent AHKScriptInfo)
  | [], items => (items, [], [])
  | p :: ps, items =>
    match mapLookup items (toString p.pid) with
    | none =>
      let r0 : AHKScriptInfo :=
        { key := toString p.pid, pid := p.pid, processName := p.name
          scriptPath := p.scriptPath, scriptName := p.scriptName
          firstSeen := now, lastSeen := now, cpu := none, memory := none }
      let t := ahkUpsert now ps (mapSet items (toString p.pid) r0)
      (t.1, toString p.pid :: t.2.1, ScanEvent.new r0 :: t.2.2)
    | some old =>
      let t := ahkUpsert now ps (mapSet items (toString p.pid)
        { old with lastSeen := now, scriptPath := p.scriptPath, scriptName := p.scriptName })
      (t.1, toString p.pid :: t.2.1, t.2.2)

/-- The deletion test of `AHKScanner.scan`'s stale loop. -/
def ahkStaleGone (cfg : ScanCfg) (now : Nat) (keys : List String)
    (kv : String × AHKScriptInfo) : Bool :=
  !(decide (kv.1 ∈ keys)) && decide (cfg.scanIntervalMs * 2 < now - kv.2.lastSeen)

/-- The stale-removal loop of `AHKScanner.scan`. -/
def ahkRemoveStale (cfg : ScanCfg) (now : Nat) (keys : List String)
    (items : List (String × AHKScriptInfo)) :
    List (String × AHKScriptInfo) × List (ScanEvent AHKScriptInfo) :=
  (items.filter (fun kv => !(ahkStaleGone cfg now keys kv)),
   (items.filter (ahkStaleGone cfg now keys)).map (fun kv => ScanEvent.stopped kv.2))

/-- The CPU/memory enrichment of one AHK record (`pidusage`, failures
caught per record). -/
def ahkEnrich (env : AHKEnv) (r0 : AHKScriptInfo) : AHKScriptInfo :=
  match env.usage r0.pid with
  | none => r0
  | some u => { r0 with cpu := some u.cpu, memory := some u.memory }

/-- The sort key of the AHK `update` payload: `a.scriptName || ''`.
`localeCompare` is embedded as the lexicographic order on the character
data. -/
def ahkSortKey (r0 : AHKScriptInfo) : List Char := (r0.scriptName.getD "").data

/-- Embedding of one `AHKScanner.scan` cycle (nothing inside it can throw:
`getAHKProcesses` and the per-record `pidusage` calls catch their own
failures, so the cycle always ends in an `update` event). -/
def ahkScanStep (cfg : ScanCfg) (env : AHKEnv) (win32 : Bool) (now : Nat)
    (items : List (String × AHKScriptInfo)) :
    List (String × AHKScriptInfo) × List (ScanEvent AHKScriptInfo) :=
  let t := ahkUpsert now (getAHKProcesses win32 env) items
  let rs := ahkRemoveStale cfg now t.2.1 t.1
  let items3 := rs.1.map (fun kv => (kv.1, ahkEnrich env kv.2))
  let payload := List.insertionSort (fun a b => ahkSortKey a ≤ ahkSortKey b)
    (items3.map Prod.snd)
  (items3, t.2.2 ++ rs.2 ++ [ScanEvent.update payload])

/-! ### Health checker (health-checker.ts) -/

/-- The health classification union type. -/
inductive HealthTier : Type where
  | healthy
  | slow
  | down
deriving DecidableEq

/-- The `HealthStatus` record. -/
structure HealthStatus : Type where
  key : String
  url : String
  status : HealthTier
  responseTime : Option Nat
  lastChecked : Nat
  error : Option String
deriving DecidableEq

/-- The `SLOW_THRESHOLD_MS` constant. -/
def SLOW_THRESHOLD_MS : Nat := 500

/-- The `DOWN_THRESHOLD_MS` constant. -/
def DOWN_THRESHOLD_MS : Nat := 2000

/-- What the HTTP HEAD request of `pingUrl` observed: a response (with its
status code and the measured round-trip time), a timeout, or a connection
error. -/
inductive PingOutcome : Type where
  | response (statusCode elapsed : Nat)
  | timeout
  | connFailure (msg : String)
deriving DecidableEq

/-- Embedding of `pingUrl`: any response resolves with the elapsed time
(the status code is never read), a timeout rejects with "Timeout", an
error event rejects with the error's message. -/
def pingUrl : PingOutcome → Except String Nat
  | .response _ elapsed => .ok elapsed
  | .timeout => .error "Timeout"
  | .connFailure m => .error m

/-- The latency classification chain of `checkServer`. -/
def classifyTime (rt : Nat) : HealthTier :=
  if rt < SLOW_THRESHOLD_MS then .healthy
  else if rt < DOWN_THRESHOLD_MS then .slow
  else .down

/-- Embedding of `checkServer` on one server: build the `HealthStatus`
record stored for its key. -/
def checkServer (key url : String) (outcome : PingOutcome) (now : Nat) : HealthStatus :=
  match pingUrl outcome with
  | .ok rt =>
    { key := key, url := url, status := classifyTime rt
      responseTime := some rt, lastChecked := now, error := none }
  | .error e =>
    { key := key, url := url, status := .down
      responseTime := none, lastChecked := now, error := some e }

/-- The `HealthChecker`'s state: the server list and the results map. -/
structure HCState : Type where
  servers : List (String × String)
  results : List (String × HealthStatus)
deriving DecidableEq

/-- Embedding of `HealthChecker.setServers`: store the new list and delete
every result whose key is not among the new keys. -/
def setServers (st : HCState) (servers : List (String × String)) : HCState :=
  { servers := servers
    results := st.results.filter (fun kv => decide (kv.1 ∈ servers.map Prod.fst)) }

/-! ### Supporting lemmas about the reconciliation cycle -/

theorem upsert_lookup_of_not_key (now : Nat) (cs : List SimpleConn)
    (items : List (String × ServerInfo)) (k : String)
    (h : k ∉ (upsert now cs items).2.1) :
    mapLookup (upsert now cs items).1 k = mapLookup items k := by
  induction cs generalizing items with
  | nil => rfl
  | cons c cs ih =>
    by_cases hz : c.pid = 0 ∨ c.localPort = 0
    · rw [upsert, if_pos hz] at h ⊢
      exact ih items h
    · rcases hm : mapLookup items (mkKey c.pid c.localPort) with _ | old
      · rw [upsert, if_neg hz, hm] at h ⊢
        simp only [List.mem_cons, not_or] at h
        rw [ih _ h.2, mapLookup_set_ne _ _ _ _ h.1]
      · rw [upsert, if_neg hz, hm] at h ⊢
        simp only [List.mem_cons, not_or] at h
        rw [ih _ h.2, mapLookup_set_ne _ _ _ _ h.1]

theorem upsert_lookup_some (now : Nat) (cs : List SimpleConn)
    (items : List (String × ServerInfo)) (k : String) (r : ServerInfo)
    (h : mapLookup items k = some r) :
    ∃ r', mapLookup (upsert now cs items).1 k = some r' ∧
      (r' = r ∨ r' = { r with lastSeen := now }) := by
  induction cs generalizing items r with
  | nil => exact ⟨r, h, Or.inl rfl⟩
  | cons c cs ih =>
    by_cases hz : c.pid = 0 ∨ c.localPort = 0
    · rw [upsert, if_pos hz]
      exact ih items r h
    · rcases hm : mapLookup items (mkKey c.pid c.localPort) with _ | old
      · rw [upsert, if_neg hz, hm]
        by_cases hk : mkKey c.pid c.localPort = k
        · rw [hk] at hm
          rw [hm] at h
          cases h
        · have h' : mapLookup (mapSet items (mkKey c.pid c.localPort) (freshRec now c)) k
              = some r := by
            rw [mapLookup_set_ne _ _ _ _ (fun hh => hk hh.symm)]; exact h
          exact ih _ r h'
      · rw [upsert, if_neg hz, hm]
        by_cases hk : mkKey c.pid c.localPort = k
        · subst hk
          rw [hm] at h
          injection h with heq
          subst heq
          have h' := mapLookup_set_self items (mkKey c.pid c.localPort)
            { old with lastSeen := now }
          rcases ih _ _ h' with ⟨r', hr', hcase⟩
          refine ⟨r', hr', ?_⟩
          rcases hcase with h1 | h1
          · exact Or.inr h1
          · exact Or.inr (by rw [h1])
        · have h' : mapLookup (mapSet items (mkKey c.pid c.localPort)
              { old with lastSeen := now }) k = some r := by
            rw [mapLookup_set_ne _ _ _ _ (fun hh => hk hh.symm)]; exact h
          exact ih _ r h'

theorem upsert_lookup_none (now : Nat) (cs : List SimpleConn)
    (items : List (String × ServerInfo)) (k : String)
    (h : mapLookup items k = none) :
    mapLookup (upsert now cs items).1 k = none ∨
    ∃ r', mapLookup (upsert now cs items).1 k = some r' ∧
      r'.firstSeen = now ∧ r'.lastSeen = now ∧
      r'.cpuHistory = [] ∧ r'.memoryHistory = [] := by
  induction cs generalizing items with
  | nil => exact Or.inl h
  | cons c cs ih =>
    by_cases hz : c.pid = 0 ∨ c.localPort = 0
    · rw [upsert, if_pos hz]
      exact ih items h
    · rcases hm : mapLookup items (mkKey c.pid c.localPort) with _ | old
      · rw [upsert, if_neg hz, hm]
        by_cases hk : mkKey c.pid c.localPort = k
        · subst hk
          have h' : mapLookup (mapSet items (mkKey c.pid c.localPort) (freshRec now c))
              (mkKey c.pid c.localPort) = some (freshRec now c) := mapLookup_set_self _ _ _
          rcases upsert_lookup_some now cs _ _ _ h' with ⟨r', hr', hcase⟩
          refine Or.inr ⟨r', hr', ?_⟩
          rcases hcase with h1 | h1 <;> subst h1 <;>
            simp [freshRec]
        · have h' : mapLookup (mapSet items (mkKey c.pid c.localPort) (freshRec now c)) k
              = none := by
            rw [mapLookup_set_ne _ _ _ _ (fun hh => hk hh.symm)]; exact h
          exact ih _ h'
      · rw [upsert, if_neg hz, hm]
        by_cases hk : mkKey c.pid c.localPort = k
        · rw [hk] at hm
          rw [hm] at h
          cases h
        · have h' : mapLookup (mapSet items (mkKey c.pid c.localPort)
              { old with lastSeen := now }) k = none := by
            rw [mapLookup_set_ne _ _ _ _ (fun hh => hk hh.symm)]; exact h
          exact ih _ h'

theorem upsert_mem_pair (now : Nat) (P : String × ServerInfo → Prop)
    (hup : ∀ k r, P (k, r) → P (k, { r with lastSeen := now }))
    (hfresh : ∀ c : SimpleConn, P (mkKey c.pid c.localPort, freshRec now c)) :
    ∀ (cs : List SimpleConn) (items : List (String × ServerInfo)),
      (∀ kv ∈ items, P kv) → ∀ kv ∈ (upsert now cs items).1, P kv := by
  intro cs
  induction cs with
  | nil => intro items h kv hkv; exact h kv hkv
  | cons c cs ih =>
    intro items h kv hkv
    by_cases hz : c.pid = 0 ∨ c.localPort = 0
    · rw [upsert, if_pos hz] at hkv
      exact ih items h kv hkv
    · rcases hm : mapLookup items (mkKey c.pid c.localPort) with _ | old
      · rw [upsert, if_neg hz, hm] at hkv
        refine ih _ ?_ kv hkv
        intro kv' hkv'
        rcases mem_mapSet hkv' with h1 | h1
        · exact h kv' h1
        · rw [h1]; exact hfresh c
      · rw [upsert, if_neg hz, hm] at hkv
        refine ih _ ?_ kv hkv
        intro kv' hkv'
        rcases mem_mapSet hkv' with h1 | h1
        · exact h kv' h1
        · rw [h1]
          exact hup _ _ (h _ (mem_of_mapLookup hm))

theorem upsert_nodup (now : Nat) (cs : List SimpleConn)
    (items : List (String × ServerInfo))
    (h : (keysOf items).Nodup) : (keysOf (upsert now cs items).1).Nodup := by
  induction cs generalizing items with
  | nil => exact h
  | cons c cs ih =>
    by_cases hz : c.pid = 0 ∨ c.localPort = 0
    · rw [upsert, if_pos hz]
      exact ih items h
    · rcases hm : mapLookup items (mkKey c.pid c.localPort) with _ | old
      · rw [upsert, if_neg hz, hm]
        exact ih _ (nodup_keysOf_mapSet _ h)
      · rw [upsert, if_neg hz, hm]
        exact ih _ (nodup_keysOf_mapSet _ h)

theorem upsert_events_new (now : Nat) (cs : List SimpleConn)
    (items : List (String × ServerInfo)) :
    ∀ e ∈ (upsert now cs items).2.2, ∃ r0, e = ScanEvent.new r0 := by
  induction cs generalizing items with
  | nil => intro e he; cases he
  | cons c cs ih =>
    intro e he
    by_cases hz : c.pid = 0 ∨ c.localPort = 0
    · rw [upsert, if_pos hz] at he
      exact ih items e he
    · rcases hm : mapLookup items (mkKey c.pid c.localPort) with _ | old
      · rw [upsert, if_neg hz, hm] at he
        rcases List.mem_cons.mp he with h1 | h1
        · exact ⟨freshRec now c, h1⟩
        · exact ih _ e h1
      · rw [upsert, if_neg hz, hm] at he
        exact ih _ e he

/-- Count of `stopped` events fired for a given entity key. -/
def countStoppedFor (evs : List (ScanEvent ServerInfo)) (k : String) : Nat :=
  evs.countP (fun e =>
    match e with
    | ScanEvent.stopped r0 => decide (r0.key = k)
    | _ => false)

/-- The `update` payloads carried by a list of events, in order. -/
def updatePayloads {α : Type} (evs : List (ScanEvent α)) : List (List α) :=
  evs.filterMap (fun e =>
    match e with
    | ScanEvent.update p => some p
    | _ => none)

theorem countStoppedFor_append (l1 l2 : List (ScanEvent ServerInfo)) (k : String) :
    countStoppedFor (l1 ++ l2) k = countStoppedFor l1 k + countStoppedFor l2 k :=
  List.countP_append _ _ _

theorem countStoppedFor_of_all_new (evs : List (ScanEvent ServerInfo)) (k : String)
    (h : ∀ e ∈ evs, ∃ r0, e = ScanEvent.new r0) : countStoppedFor evs k = 0 := by
  rw [countStoppedFor, List.countP_eq_zero]
  intro e he
  rcases h e he with ⟨r0, hr0⟩
  subst hr0
  simp

theorem countStoppedFor_stopped_of_no_key (items : List (String × ServerInfo))
    (q : String × ServerInfo → Bool) (k : String)
    (hwf : ∀ kv ∈ items, kv.2.key = kv.1) (habs : k ∉ keysOf items) :
    countStoppedFor ((items.filter q).map (fun kv => ScanEvent.stopped kv.2)) k = 0 := by
  rw [countStoppedFor, List.countP_eq_zero]
  intro e he
  rcases List.mem_map.mp he with ⟨kv, hkv, hkv2⟩
  subst hkv2
  have hmem := (List.mem_filter.mp hkv).1
  have hkey := hwf kv hmem
  have hne : kv.2.key ≠ k := by
    rw [hkey]
    intro hh
    exact habs (hh ▸ List.mem_map_of_mem Prod.fst hmem)
  simp [hne]

theorem countStoppedFor_stopped_unique (items : List (String × ServerInfo))
    (q : String × ServerInfo → Bool) (k : String) (r : ServerInfo)
    (hnd : (keysOf items).Nodup) (hwf : ∀ kv ∈ items, kv.2.key = kv.1)
    (hlk : mapLookup items k = some r) (hkey : r.key = k) (hq : q (k, r) = true) :
    countStoppedFor ((items.filter q).map (fun kv => ScanEvent.stopped kv.2)) k = 1 := by
  induction items with
  | nil => cases hlk
  | cons kv rest ih =>
    rw [keysOf, List.map_cons, List.nodup_cons] at hnd
    by_cases hk : kv.1 = k
    · rw [mapLookup, if_pos hk] at hlk
      injection hlk with heq
      have hkv : kv = (k, r) := by
        rcases kv with ⟨k1, r1⟩
        simp at hk heq
        rw [hk, heq]
      subst hkv
      rw [List.filter_cons, if_pos hq, List.map_cons, countStoppedFor,
        List.countP_cons]
      have h0 : countStoppedFor ((rest.filter q).map (fun kv => ScanEvent.stopped kv.2)) k
          = 0 := by
        refine countStoppedFor_stopped_of_no_key rest q k
          (fun kv' hkv' => hwf kv' (List.mem_cons_of_mem _ hkv')) ?_
        simpa [keysOf] using hnd.1
      rw [countStoppedFor] at h0
      rw [h0]
      simp [hkey]
    · rw [mapLookup, if_neg hk] at hlk
      have ih' := ih hnd.2 (fun kv' hkv' => hwf kv' (List.mem_cons_of_mem _ hkv')) hlk
      rw [List.filter_cons]
      by_cases hqkv : q kv
      · rw [if_pos hqkv, List.map_cons, countStoppedFor, List.countP_cons]
        have hkne : kv.2.key ≠ k := by
          rw [hwf kv (List.mem_cons_self _ _)]; exact hk
        rw [countStoppedFor] at ih'
        rw [ih']
        simp [hkne]
      · rw [if_neg hqkv]
        exact ih'

theorem updatePayloads_append {α : Type} (l1 l2 : List (ScanEvent α)) :
    updatePayloads (l1 ++ l2) = updatePayloads l1 ++ updatePayloads l2 :=
  List.filterMap_append _ _ _

theorem updatePayloads_of_all_new {α : Type} (evs : List (ScanEvent α))
    (h : ∀ e ∈ evs, ∃ r0, e = ScanEvent.new r0) : updatePayloads evs = [] := by
  rw [updatePayloads, List.filterMap_eq_nil_iff]
  intro e he
  rcases h e he with ⟨r0, hr0⟩
  subst hr0
  rfl

theorem updatePayloads_removeStale (cfg : ScanCfg) (now : Nat) (keys : List String)
    (items : List (String × ServerInfo)) :
    updatePayloads (removeStale cfg now keys items).2 = [] := by
  rw [removeStale, updatePayloads, List.filterMap_eq_nil_iff]
  intro e he
  rcases List.mem_map.mp he with ⟨kv, _, hkv2⟩
  subst hkv2
  rfl

theorem countStoppedFor_single_update (payload : List ServerInfo) (k : String) :
    countStoppedFor [ScanEvent.update payload] k = 0 := by
  simp [countStoppedFor]

theorem countStoppedFor_single_error (msg : String) (k : String) :
    countStoppedFor [ScanEvent.error msg] k = 0 := by
  simp [countStoppedFor]

theorem applyUsage_times (u : Option Usage) (r0 : ServerInfo) :
    (applyUsage u r0).firstSeen = r0.firstSeen ∧ (applyUsage u r0).lastSeen = r0.lastSeen ∧
    (applyUsage u r0).key = r0.key ∧ (applyUsage u r0).port = r0.port := by
  cases u with
  | none => exact ⟨rfl, rfl, rfl, rfl⟩
  | some usg => exact ⟨rfl, rfl, rfl, rfl⟩

theorem enrichRec_times (env : ScanEnv) (byPid : List (Nat × ProcData)) (r0 : ServerInfo) :
    (enrichRec env byPid r0).firstSeen = r0.firstSeen ∧
    (enrichRec env byPid r0).lastSeen = r0.lastSeen ∧
    (enrichRec env byPid r0).key = r0.key ∧
    (enrichRec env byPid r0).port = r0.port := by
  rw [enrichRec]
  cases mapLookup byPid r0.pid with
  | none => exact ⟨rfl, rfl, rfl, rfl⟩
  | some p =>
    dsimp only
    by_cases hc : strFalsy r0.cwd
    · simp only [hc, if_pos]
      cases env.cwdOf r0.pid with
      | none => exact applyUsage_times _ _
      | some c => exact applyUsage_times _ _
    · simp only [hc, if_neg, not_false_iff]
      exact applyUsage_times _ _

theorem applyUsage_hist_le (u : Option Usage) (r0 : ServerInfo)
    (hc : r0.cpuHistory.length ≤ 6) (hm : r0.memoryHistory.length ≤ 6) :
    (applyUsage u r0).cpuHistory.length ≤ 6 ∧
    (applyUsage u r0).memoryHistory.length ≤ 6 := by
  cases u with
  | none => exact ⟨hc, hm⟩
  | some usg =>
    constructor
    · show (if 6 < (r0.cpuHistory ++ [usg.cpu]).length
          then (r0.cpuHistory ++ [usg.cpu]).tail
          else r0.cpuHistory ++ [usg.cpu]).length ≤ 6
      by_cases h7 : 6 < (r0.cpuHistory ++ [usg.cpu]).length
      · rw [if_pos h7, List.length_tail]
        simp at h7 ⊢
        omega
      · rw [if_neg h7]
        omega
    · show (if 6 < (r0.memoryHistory ++ [usg.memory]).length
          then (r0.memoryHistory ++ [usg.memory]).tail
          else r0.memoryHistory ++ [usg.memory]).length ≤ 6
      by_cases h7 : 6 < (r0.memoryHistory ++ [usg.memory]).length
      · rw [if_pos h7, List.length_tail]
        simp at h7 ⊢
        omega
      · rw [if_neg h7]
        omega

theorem enrichRec_hist_le (env : ScanEnv) (byPid : List (Nat × ProcData)) (r0 : ServerInfo)
    (hc : r0.cpuHistory.length ≤ 6) (hm : r0.memoryHistory.length ≤ 6) :
    (enrichRec env byPid r0).cpuHistory.length ≤ 6 ∧
    (enrichRec env byPid r0).memoryHistory.length ≤ 6 := by
  rw [enrichRec]
  cases mapLookup byPid r0.pid with
  | none => exact ⟨hc, hm⟩
  | some p =>
    dsimp only
    by_cases hcwd : strFalsy r0.cwd
    · simp only [hcwd, if_pos]
      cases env.cwdOf r0.pid with
      | none => exact applyUsage_hist_le _ _ hc hm
      | some c => exact applyUsage_hist_le _ _ hc hm
    · simp only [hcwd, if_neg, not_false_iff]
      exact applyUsage_hist_le _ _ hc hm

theorem nodup_keysOf_filter {κ α : Type} (m : List (κ × α)) (p : κ × α → Bool)
    (hnd : (keysOf m).Nodup) : (keysOf (m.filter p)).Nodup := by
  have hsub : List.Sublist (keysOf (m.filter p)) (keysOf m) :=
    List.Sublist.map Prod.fst (List.filter_sublist m)
  exact hsub.nodup hnd

theorem mapLookup_filter_to_base {κ α : Type} [DecidableEq κ] {m : List (κ × α)}
    {p : κ × α → Bool} {k : κ} {v : α} (hnd : (keysOf m).Nodup)
    (h : mapLookup (m.filter p) k = some v) :
    mapLookup m k = some v ∧ p (k, v) = true := by
  have hmem := List.mem_filter.mp (mem_of_mapLookup h)
  exact ⟨mapLookup_of_mem hnd hmem.1, hmem.2⟩

theorem mapLookup_filter_of_base {κ α : Type} [DecidableEq κ] {m : List (κ × α)}
    {p : κ × α → Bool} {k : κ} {v : α} (hnd : (keysOf m).Nodup)
    (h : mapLookup m k = some v) (hp : p (k, v) = true) :
    mapLookup (m.filter p) k = some v :=
  mapLookup_of_mem (nodup_keysOf_filter m p hnd)
    (List.mem_filter.mpr ⟨mem_of_mapLookup h, hp⟩)

theorem not_mem_keysOf_filter {κ α : Type} [DecidableEq κ] {m : List (κ × α)}
    {p : κ × α → Bool} {k : κ} {v : α} (hnd : (keysOf m).Nodup)
    (h : mapLookup m k = some v) (hp : p (k, v) = false) :
    k ∉ keysOf (m.filter p) := by
  intro hk
  rcases Option.isSome_iff_exists.mp ((mapLookup_isSome_iff _ _).mpr hk) with ⟨w, hw⟩
  rcases mapLookup_filter_to_base hnd hw with ⟨hw1, hw2⟩
  rw [h] at hw1
  injection hw1 with he
  rw [← he] at hw2
  rw [hw2] at hp
  cases hp

theorem scanStep_items_keys (cfg : ScanCfg) (env : ScanEnv) (win32 : Bool) (now : Nat)
    (siRes : Except String (List SIConn)) (nsRes : Except String (List NetstatEntry))
    (st : ScanState) :
    keysOf (scanStep cfg env win32 now siRes nsRes st).1.items =
      keysOf (removeStale cfg now
        (upsert now (cycleConns cfg win32 siRes nsRes) st.items).2.1
        (upsert now (cycleConns cfg win32 siRes nsRes) st.items).1).1 := by
  rw [scanStep]
  rcases hp : env.procs with e | procList
  · rfl
  · dsimp only
    exact keysOf_map_value _ _

theorem scanStep_lookup_times (cfg : ScanCfg) (env : ScanEnv) (win32 : Bool) (now : Nat)
    (siRes : Except String (List SIConn)) (nsRes : Except String (List NetstatEntry))
    (st : ScanState) (k : String) (r1 : ServerInfo)
    (hnd : (keysOf st.items).Nodup)
    (h : mapLookup (scanStep cfg env win32 now siRes nsRes st).1.items k = some r1) :
    ∃ r', mapLookup (upsert now (cycleConns cfg win32 siRes nsRes) st.items).1 k = some r' ∧
      r1.firstSeen = r'.firstSeen ∧ r1.lastSeen = r'.lastSeen := by
  have hnd1 : (keysOf (upsert now (cycleConns cfg win32 siRes nsRes) st.items).1).Nodup :=
    upsert_nodup _ _ _ hnd
  rw [scanStep] at h
  rcases hp : env.procs with e | procList <;> rw [hp] at h <;> dsimp only at h
  · rw [removeStale] at h
    dsimp only at h
    exact ⟨r1, (mapLookup_filter_to_base hnd1 h).1, rfl, rfl⟩
  · rw [removeStale] at h
    dsimp only at h
    rw [mapLookup_map_value] at h
    rcases Option.map_eq_some'.mp h with ⟨v, hv, hv2⟩
    subst hv2
    rcases enrichRec_times env (byPidOf procList) v with ⟨h1, h2, _, _⟩
    exact ⟨v, (mapLookup_filter_to_base hnd1 hv).1, h1, h2⟩

theorem scanStep_mem_invariant (cfg : ScanCfg) (env : ScanEnv) (win32 : Bool) (now : Nat)
    (siRes : Except String (List SIConn)) (nsRes : Except String (List NetstatEntry))
    (st : ScanState) (P : ServerInfo → Prop)
    (hup : ∀ r, P r → P { r with lastSeen := now })
    (hfresh : ∀ c : SimpleConn, P (freshRec now c))
    (henrich : ∀ byPid r, P r → P (enrichRec env byPid r))
    (h : ∀ kv ∈ st.items, P kv.2) :
    ∀ kv ∈ (scanStep cfg env win32 now siRes nsRes st).1.items, P kv.2 := by
  have h1 : ∀ kv ∈ (upsert now (cycleConns cfg win32 siRes nsRes) st.items).1, P kv.2 :=
    upsert_mem_pair now (fun kv => P kv.2) (fun _ r hp => hup r hp) (fun c => hfresh c) _ _ h
  intro kv hkv
  rw [scanStep] at hkv
  rcases hp : env.procs with e | procList <;> rw [hp] at hkv <;> dsimp only at hkv
  · rw [removeStale] at hkv
    dsimp only at hkv
    exact h1 kv (List.mem_filter.mp hkv).1
  · rw [removeStale] at hkv
    dsimp only at hkv
    rcases List.mem_map.mp hkv with ⟨kv0, hkv0, hkv0e⟩
    subst hkv0e
    exact henrich _ _ (h1 kv0 (List.mem_filter.mp hkv0).1)

/-! ### The claims -/

/-- Claim C4: for every port and configuration, `included` is
unconditionally true when `scanAll` holds; otherwise it holds exactly when
the port equals an explicit value or lies inclusively inside a configured
range; for a single configured range `[a, b]` with `a ≤ b`, both endpoints
are included and `a - 1`, `b + 1` are excluded. -/
theorem portFilter_spec :
    (∀ (cfg : ScanCfg) (port : Int), cfg.scanAllPorts = true →
        inConfiguredPorts cfg port = true) ∧
    (∀ (cfg : ScanCfg) (port : Int), cfg.scanAllPorts = false →
        (inConfiguredPorts cfg port = true ↔ ∃ p ∈ cfg.ports, portSpecMatches p port)) ∧
    (∀ (ivl : Nat) (a b : Int), a ≤ b →
        inConfiguredPorts ⟨ivl, [PortSpec.range a b], false⟩ a = true ∧
        inConfiguredPorts ⟨ivl, [PortSpec.range a b], false⟩ b = true ∧
        inConfiguredPorts ⟨ivl, [PortSpec.range a b], false⟩ (a - 1) = false ∧
        inConfiguredPorts ⟨ivl, [PortSpec.range a b], false⟩ (b + 1) = false) := by
  refine ⟨?_, inConfiguredPorts_iff, ?_⟩
  · intro cfg port h
    rw [inConfiguredPorts, h]
    rfl
  · intro ivl a b hab
    refine ⟨?_, ?_, ?_, ?_⟩ <;> simp [inConfiguredPorts, portSpecTest] <;> omega

/-- Witness for claim C4 at the default `[5173, 5199]` range and a
`scanAll` configuration. -/
theorem portFilter_witness :
    inConfiguredPorts ⟨5000, [PortSpec.range 5173 5199], false⟩ 5173 = true ∧
    inConfiguredPorts ⟨5000, [PortSpec.range 5173 5199], false⟩ 5199 = true ∧
    inConfiguredPorts ⟨5000, [PortSpec.range 5173 5199], false⟩ 5172 = false ∧
    inConfiguredPorts ⟨5000, [PortSpec.range 5173 5199], false⟩ 5200 = false ∧
    inConfiguredPorts ⟨5000, [], true⟩ 65535 = true := by
  have h := portFilter_spec.2.2 5000 5173 5199 (by decide)
  exact ⟨h.1, h.2.1, h.2.2.1, h.2.2.2, portFilter_spec.1 ⟨5000, [], true⟩ 65535 rfl⟩

/-- Claim C2: the dual-source merge is deduplicated by the `pid:port` key;
a key seeded by the first (system-information) source keeps that source's
tuple (the lookup of the merged map equals the first source's entry
whenever it exists, the first matching netstat entry only otherwise), a
key is present in the first source's map exactly when some accepted
system-information record carries it, and for two sources with disjoint
keys the merge is exactly the union of both tuples. -/
theorem enumeratorMerge_spec :
    (∀ (si : List SIConn) (ns : List NetstatEntry) (k : String),
        mapLookup (mergeMap true si ns) k = (mapLookup (siMap si) k).or (nsFirst ns k)) ∧
    (∀ (si : List SIConn) (k : String),
        (mapLookup (siMap si) k).isSome ↔
          ∃ c ∈ si, siAccepts c = true ∧ mkKey c.pid c.localPort = k) ∧
    (∀ (c1 : SIConn) (e2 : NetstatEntry), siAccepts c1 = true →
        mkKey c1.pid c1.localPort ≠ mkKey e2.pid e2.port →
        getListening true [c1] [e2] = [siConnOf c1, nsConnOf e2]) := by
  refine ⟨?_, ?_, ?_⟩
  · intro si ns k
    rw [mergeMap, if_pos rfl]
    exact nsFold_lookup ns (siMap si) k
  · intro si k
    have h := siFold_lookup_isSome si [] k
    rw [siMap]
    simpa [mapLookup] using h
  · intro c1 e2 hacc hne
    have h1 : siMap [c1] = [(mkKey c1.pid c1.localPort, siConnOf c1)] := by
      rw [siMap, List.foldl_cons, List.foldl_nil, siStep, if_pos hacc]
      rfl
    rw [getListening, mergeMap, if_pos rfl, List.foldl_cons, List.foldl_nil, h1, nsStep]
    have h2 : mapLookup [(mkKey c1.pid c1.localPort, siConnOf c1)] (mkKey e2.pid e2.port)
        = none := by
      rw [mapLookup, if_neg hne]
      rfl
    rw [h2]
    simp only [Option.isSome_none, Bool.false_eq_true, if_false]
    rw [mapSet, if_neg hne]
    rfl

/-- Witness for claim C2: an accepted system-information record on
`100:3000` merged with a netstat record on `200:6000`. -/
theorem enumeratorMerge_witness :
    getListening true [⟨"tcp", "LISTEN", 3000, 100⟩] [⟨6000, 200⟩]
      = [siConnOf ⟨"tcp", "LISTEN", 3000, 100⟩, nsConnOf ⟨6000, 200⟩] :=
  enumeratorMerge_spec.2.2 ⟨"tcp", "LISTEN", 3000, 100⟩ ⟨6000, 200⟩ (by decide) (by decide)

/-- Claim C3 counterexample: with both enumeration sources throwing, the
enumerator yields the empty set, but the cycle is NOT surfaced as an
`error` event — the two `catch { /* ignore */ }` blocks swallow the
failures and the cycle completes normally, emitting only the (empty)
`update` snapshot. -/
theorem bothSourcesFail_counterexample :
    getListeningF true (Except.error "si failed") (Except.error "netstat failed") = [] ∧
    (scanStep ⟨5000, [], true⟩ ⟨Except.ok [], fun _ => none, fun _ => none, fun _ => none⟩
        true 0 (Except.error "si failed") (Except.error "netstat failed")
        ⟨[], []⟩).2 = [ScanEvent.update []] := by
  exact ⟨rfl, rfl⟩

/-- Claim C3 (amended): when both enumeration sources fail the enumerator
yields the empty set, and a single failed source degrades to what the
other source yielded; source failures are swallowed silently — no cycle
`error` event is fired for them (whether one or both sources fail), and
the cycle still completes with its `update` snapshot whenever the rest of
the cycle succeeds, so a source failure is never fatal to the timer. -/
theorem bothSourcesFail_spec :
    (∀ (win32 : Bool) (e1 e2 : String),
        getListeningF win32 (Except.error e1) (Except.error e2) = []) ∧
    (∀ (win32 : Bool) (si : List SIConn) (e2 : String),
        getListeningF win32 (Except.ok si) (Except.error e2) = getListening win32 si []) ∧
    (∀ (win32 : Bool) (e1 : String) (ns : List NetstatEntry),
        getListeningF win32 (Except.error e1) (Except.ok ns) = getListening win32 [] ns) ∧
    (∀ (cfg : ScanCfg) (env : ScanEnv) (win32 : Bool) (now : Nat) siRes nsRes
        (st : ScanState) (procList : List ProcData), env.procs = Except.ok procList →
        ∀ e ∈ (scanStep cfg env win32 now siRes nsRes st).2, ∀ msg, e ≠ ScanEvent.error msg) := by
  refine ⟨?_, ?_, ?_, ?_⟩
  · intro win32 e1 e2
    cases win32 <;> rfl
  · intro win32 si e2
    rfl
  · intro win32 e1 ns
    rfl
  · intro cfg env win32 now siRes nsRes st procList hp e he msg
    rw [scanStep, hp] at he
    dsimp only at he
    rw [List.append_assoc, List.mem_append] at he
    rcases he with he | he
    · rcases upsert_events_new now _ _ e he with ⟨r0, hr0⟩
      subst hr0
      intro hh
      cases hh
    · rw [List.mem_append] at he
      rcases he with he | he
      · rw [removeStale] at he
        dsimp only at he
        rcases List.mem_map.mp he with ⟨kv, _, hkv⟩
        subst hkv
        intro hh
        cases hh
      · rcases List.mem_singleton.mp he with rfl
        intro hh
        cases hh

/-- Witness for the amended claim C3, at a concrete cycle whose process
enumeration succeeds while both listening-socket sources fail. -/
theorem bothSourcesFail_witness :
    getListeningF true (Except.error "a") (Except.error "b") = [] ∧
    ∀ e ∈ (scanStep ⟨5000, [], true⟩
        ⟨Except.ok [], fun _ => none, fun _ => none, fun _ => none⟩
        true 0 (Except.error "a") (Except.error "b") ⟨[], []⟩).2,
      ∀ msg, e ≠ ScanEvent.error msg :=
  ⟨bothSourcesFail_spec.1 true "a" "b",
   bothSourcesFail_spec.2.2.2 ⟨5000, [], true⟩
     ⟨Except.ok [], fun _ => none, fun _ => none, fun _ => none⟩
     true 0 (Except.error "a") (Except.error "b") ⟨[], []⟩ [] rfl⟩

/-- Claim C5: a measured round-trip time below 500ms classifies healthy,
in [500, 2000) slow, at or above 2000 down; an errored or timed-out probe
classifies down with the error description recorded and no response time;
the response's status code is never inspected — two responses differing
only in status code produce identical records. -/
theorem healthClassification_spec :
    (∀ (key url : String) (sc t now : Nat), t < 500 →
        (checkServer key url (PingOutcome.response sc t) now).status = HealthTier.healthy) ∧
    (∀ (key url : String) (sc t now : Nat), 500 ≤ t → t < 2000 →
        (checkServer key url (PingOutcome.response sc t) now).status = HealthTier.slow) ∧
    (∀ (key url : String) (sc t now : Nat), 2000 ≤ t →
        (checkServer key url (PingOutcome.response sc t) now).status = HealthTier.down) ∧
    (∀ (key url : String) (sc t now : Nat),
        (checkServer key url (PingOutcome.response sc t) now).responseTime = some t ∧
        (checkServer key url (PingOutcome.response sc t) now).error = none) ∧
    (∀ (key url : String) (now : Nat),
        (checkServer key url PingOutcome.timeout now).status = HealthTier.down ∧
        (checkServer key url PingOutcome.timeout now).responseTime = none ∧
        (checkServer key url PingOutcome.timeout now).error = some "Timeout") ∧
    (∀ (key url m : String) (now : Nat),
        (checkServer key url (PingOutcome.connFailure m) now).status = HealthTier.down ∧
        (checkServer key url (PingOutcome.connFailure m) now).responseTime = none ∧
        (checkServer key url (PingOutcome.connFailure m) now).error = some m) ∧
    (∀ (key url : String) (s1 s2 t now : Nat),
        checkServer key url (PingOutcome.response s1 t) now
          = checkServer key url (PingOutcome.response s2 t) now) := by
  refine ⟨?_, ?_, ?_, ?_, ?_, ?_, ?_⟩
  · intro key url sc t now h
    simp only [checkServer, pingUrl, classifyTime, SLOW_THRESHOLD_MS]
    rw [if_pos h]
  · intro key url sc t now h1 h2
    simp only [checkServer, pingUrl, classifyTime, SLOW_THRESHOLD_MS, DOWN_THRESHOLD_MS]
    rw [if_neg (by omega), if_pos h2]
  · intro key url sc t now h
    simp only [checkServer, pingUrl, classifyTime, SLOW_THRESHOLD_MS, DOWN_THRESHOLD_MS]
    rw [if_neg (by omega), if_neg (by omega)]
  · intro key url sc t now
    exact ⟨rfl, rfl⟩
  · intro key url now
    exact ⟨rfl, rfl, rfl⟩
  · intro key url m now
    exact ⟨rfl, rfl, rfl⟩
  · intro key url s1 s2 t now
    rfl

/-- Witness for claim C5 at the boundary times 499, 500, 1999 and 2000ms
and the two failure modes. -/
theorem healthClassification_witness :
    (checkServer "1:3000" "http://localhost:3000" (PingOutcome.response 200 499) 0).status
      = HealthTier.healthy ∧
    (checkServer "1:3000" "http://localhost:3000" (PingOutcome.response 200 500) 0).status
      = HealthTier.slow ∧
    (checkServer "1:3000" "http://localhost:3000" (PingOutcome.response 200 1999) 0).status
      = HealthTier.slow ∧
    (checkServer "1:3000" "http://localhost:3000" (PingOutcome.response 200 2000) 0).status
      = HealthTier.down ∧
    (checkServer "1:3000" "http://localhost:3000" PingOutcome.timeout 0).status
      = HealthTier.down ∧
    checkServer "1:3000" "http://localhost:3000" (PingOutcome.response 200 499) 0
      = checkServer "1:3000" "http://localhost:3000" (PingOutcome.response 404 499) 0 :=
  ⟨healthClassification_spec.1 _ _ 200 499 0 (by decide),
   healthClassification_spec.2.1 _ _ 200 500 0 (by decide) (by decide),
   healthClassification_spec.2.1 _ _ 200 1999 0 (by decide) (by decide),
   healthClassification_spec.2.2.1 _ _ 200 2000 0 (by decide),
   (healthClassification_spec.2.2.2.2.1 _ _ 0).1,
   healthClassification_spec.2.2.2.2.2.2 _ _ 200 404 499 0⟩

/-- Claim C6: `setServers` immediately deletes every stored health record
whose key is not in the received entity list (no grace period): afterwards
the record map's key set is a subset of the received keys, a key absent
from the list looks up to nothing, and exactly the records with a still
valid key survive, unchanged. -/
theorem healthPruning_spec :
    (∀ (st : HCState) (servers : List (String × String)) (k : String),
        k ∈ keysOf (setServers st servers).results → k ∈ servers.map Prod.fst) ∧
    (∀ (st : HCState) (servers : List (String × String)) (k : String),
        k ∉ servers.map Prod.fst → mapLookup (setServers st servers).results k = none) ∧
    (∀ (st : HCState) (servers : List (String × String)) (kv : String × HealthStatus),
        kv ∈ (setServers st servers).results ↔
          kv ∈ st.results ∧ kv.1 ∈ servers.map Prod.fst) := by
  have hmem : ∀ (st : HCState) (servers : List (String × String)) (kv : String × HealthStatus),
      kv ∈ (setServers st servers).results ↔
        kv ∈ st.results ∧ kv.1 ∈ servers.map Prod.fst := by
    intro st servers kv
    rw [setServers]
    dsimp only
    rw [List.mem_filter]
    simp
  refine ⟨?_, ?_, hmem⟩
  · intro st servers k hk
    rcases List.mem_map.mp hk with ⟨kv, hkv, hkv2⟩
    subst hkv2
    exact ((hmem st servers kv).mp hkv).2
  · intro st servers k hk
    rcases hcase : mapLookup (setServers st servers).results k with _ | v
    · rfl
    · exact absurd (((hmem st servers (k, v)).mp (mem_of_mapLookup hcase)).2) hk

/-- Witness for claim C6: a record for a vanished key `9:9` is pruned
while the record for the still reported key `1:3000` survives. -/
theorem healthPruning_witness :
    mapLookup (setServers
        ⟨[], [("1:3000", ⟨"1:3000", "u", HealthTier.healthy, some 10, 5, none⟩),
              ("9:9", ⟨"9:9", "v", HealthTier.down, none, 5, some "gone"⟩)]⟩
        [("1:3000", "u")]).results "9:9" = none ∧
    ("1:3000", (⟨"1:3000", "u", HealthTier.healthy, some 10, 5, none⟩ : HealthStatus))
      ∈ (setServers
        ⟨[], [("1:3000", ⟨"1:3000", "u", HealthTier.healthy, some 10, 5, none⟩),
              ("9:9", ⟨"9:9", "v", HealthTier.down, none, 5, some "gone"⟩)]⟩
        [("1:3000", "u")]).results :=
  ⟨healthPruning_spec.2.1 _ [("1:3000", "u")] "9:9" (by decide),
   (healthPruning_spec.2.2 _ [("1:3000", "u")] _).mpr ⟨by decide, by decide⟩⟩

/-- Claim C7: the CPU and memory history buffers never exceed 6 samples —
a successful sample appends at the tail (once over capacity the oldest
entry is dropped, FIFO), a failed per-process sample (process exited)
leaves the record entirely unchanged for that cycle, and the 6-sample
bound is an invariant of the whole scan cycle. -/
theorem metricsHistory_spec :
    (∀ (u : Option Usage) (r0 : ServerInfo),
        r0.cpuHistory.length ≤ 6 → r0.memoryHistory.length ≤ 6 →
        (applyUsage u r0).cpuHistory.length ≤ 6 ∧
        (applyUsage u r0).memoryHistory.length ≤ 6) ∧
    (∀ (usg : Usage) (r0 : ServerInfo), r0.cpuHistory.length ≤ 5 →
        (applyUsage (some usg) r0).cpuHistory = r0.cpuHistory ++ [usg.cpu]) ∧
    (∀ (usg : Usage) (r0 : ServerInfo), r0.cpuHistory.length = 6 →
        (applyUsage (some usg) r0).cpuHistory = r0.cpuHistory.tail ++ [usg.cpu]) ∧
    (∀ (usg : Usage) (r0 : ServerInfo), r0.memoryHistory.length ≤ 5 →
        (applyUsage (some usg) r0).memoryHistory = r0.memoryHistory ++ [usg.memory]) ∧
    (∀ (usg : Usage) (r0 : ServerInfo), r0.memoryHistory.length = 6 →
        (applyUsage (some usg) r0).memoryHistory = r0.memoryHistory.tail ++ [usg.memory]) ∧
    (∀ r0 : ServerInfo, applyUsage none r0 = r0) ∧
    (∀ (cfg : ScanCfg) (env : ScanEnv) (win32 : Bool) (now : Nat) siRes nsRes
        (st : ScanState),
        (∀ kv ∈ st.items, kv.2.cpuHistory.length ≤ 6 ∧ kv.2.memoryHistory.length ≤ 6) →
        ∀ kv ∈ (scanStep cfg env win32 now siRes nsRes st).1.items,
          kv.2.cpuHistory.length ≤ 6 ∧ kv.2.memoryHistory.length ≤ 6) := by
  refine ⟨applyUsage_hist_le, ?_, ?_, ?_, ?_, fun _ => rfl, ?_⟩
  · intro usg r0 h5
    simp only [applyUsage]
    rw [if_neg (by simp; omega)]
  · intro usg r0 h6
    simp only [applyUsage]
    rw [if_pos (by simp [h6])]
    rcases hl : r0.cpuHistory with _ | ⟨a, l⟩
    · rw [hl] at h6
      cases h6
    · simp
  · intro usg r0 h5
    simp only [applyUsage]
    rw [if_neg (by simp; omega)]
  · intro usg r0 h6
    simp only [applyUsage]
    rw [if_pos (by simp [h6])]
    rcases hl : r0.memoryHistory with _ | ⟨a, l⟩
    · rw [hl] at h6
      cases h6
    · simp
  · intro cfg env win32 now siRes nsRes st h
    exact scanStep_mem_invariant cfg env win32 now siRes nsRes st
      (fun r => r.cpuHistory.length ≤ 6 ∧ r.memoryHistory.length ≤ 6)
      (fun r hp => hp)
      (fun c => by simp [freshRec])
      (fun byPid r hp => enrichRec_hist_le env byPid r hp.1 hp.2)
      h

/-- Witness for claim C7: a full 6-sample buffer receiving a 7th sample
drops the oldest, and a failed sample changes nothing. -/
theorem metricsHistory_witness :
    (applyUsage (some ⟨70, 800⟩)
        { key := "1:3000", pid := 1, port := 3000, protocol := "tcp"
          processName := none, command := none, path := none, cwd := none
          firstSeen := 0, lastSeen := 0, url := "http://localhost:3000"
          cpu := none, memory := none, framework := none
          cpuHistory := [1, 2, 3, 4, 5, 6]
          memoryHistory := [10, 20, 30] }).cpuHistory = [2, 3, 4, 5, 6, 70] ∧
    (applyUsage (some ⟨70, 800⟩)
        { key := "1:3000", pid := 1, port := 3000, protocol := "tcp"
          processName := none, command := none, path := none, cwd := none
          firstSeen := 0, lastSeen := 0, url := "http://localhost:3000"
          cpu := none, memory := none, framework := none
          cpuHistory := [1, 2, 3, 4, 5, 6]
          memoryHistory := [10, 20, 30] }).memoryHistory = [10, 20, 30, 800] ∧
    applyUsage none
        { key := "1:3000", pid := 1, port := 3000, protocol := "tcp"
          processName := none, command := none, path := none, cwd := none
          firstSeen := 0, lastSeen := 0, url := "http://localhost:3000"
          cpu := none, memory := none, framework := none
          cpuHistory := [1, 2, 3, 4, 5, 6]
          memoryHistory := [10, 20, 30] }
      = { key := "1:3000", pid := 1, port := 3000, protocol := "tcp"
          processName := none, command := none, path := none, cwd := none
          firstSeen := 0, lastSeen := 0, url := "http://localhost:3000"
          cpu := none, memory := none, framework := none
          cpuHistory := [1, 2, 3, 4, 5, 6]
          memoryHistory := [10, 20, 30] } := by
  refine ⟨?_, ?_, metricsHistory_spec.2.2.2.2.2.1 _⟩
  · have h := metricsHistory_spec.2.2.1 ⟨70, 800⟩
      { key := "1:3000", pid := 1, port := 3000, protocol := "tcp"
        processName := none, command := none, path := none, cwd := none
        firstSeen := 0, lastSeen := 0, url := "http://localhost:3000"
        cpu := none, memory := none, framework := none
        cpuHistory := [1, 2, 3, 4, 5, 6]
        memoryHistory := [10, 20, 30] } (by decide)
    rw [h]
    rfl
  · have h := metricsHistory_spec.2.2.2.1 ⟨70, 800⟩
      { key := "1:3000", pid := 1, port := 3000, protocol := "tcp"
        processName := none, command := none, path := none, cwd := none
        firstSeen := 0, lastSeen := 0, url := "http://localhost:3000"
        cpu := none, memory := none, framework := none
        cpuHistory := [1, 2, 3, 4, 5, 6]
        memoryHistory := [10, 20, 30] } (by decide)
    rw [h]
    rfl

/-- Claim C8: a cache entry written at time `t` is returned verbatim by
any lookup strictly before `t + 30s` with the resolution steps skipped
entirely (the returned flag is `false` and the cache is untouched), while
a lookup at or after `t + 30s` re-runs resolution and refreshes the
entry. -/
theorem cwdCache_spec :
    ∀ (resolve : Nat → Option String) (cache : List (Nat × CwdEntry)) (now pid : Nat)
      (e : CwdEntry), mapLookup cache pid = some e →
      (now < e.time + 30000 →
          getProcessCwd resolve cache now pid = (e.cwd, cache, false)) ∧
      (e.time + 30000 ≤ now →
          getProcessCwd resolve cache now pid
            = (resolve pid, mapSet cache pid ⟨resolve pid, now⟩, true)) := by
  intro resolve cache now pid e he
  constructor
  · intro h
    have hlt : now - e.time < CWD_CACHE_TTL := by
      unfold CWD_CACHE_TTL
      omega
    rw [getProcessCwd, he]
    dsimp only
    rw [if_pos hlt]
  · intro h
    have hge : ¬(now - e.time < CWD_CACHE_TTL) := by
      unfold CWD_CACHE_TTL
      omega
    rw [getProcessCwd, he]
    dsimp only
    rw [if_neg hge]

/-- Witness for claim C8: an entry cached at `t = 1000` is served from the
cache at `t = 30999` and re-resolved at `t = 31000`. -/
theorem cwdCache_witness :
    getProcessCwd (fun _ => some "D:\\proj2") [(42, ⟨some "D:\\proj", 1000⟩)] 30999 42
      = (some "D:\\proj", [(42, ⟨some "D:\\proj", 1000⟩)], false) ∧
    getProcessCwd (fun _ => some "D:\\proj2") [(42, ⟨some "D:\\proj", 1000⟩)] 31000 42
      = (some "D:\\proj2", [(42, ⟨some "D:\\proj2", 31000⟩)], true) := by
  have h := cwdCache_spec (fun _ => some "D:\\proj2") [(42, ⟨some "D:\\proj", 1000⟩)]
  exact ⟨(h 30999 42 ⟨some "D:\\proj", 1000⟩ (by decide)).1 (by decide),
         by
           have h2 := (h 31000 42 ⟨some "D:\\proj", 1000⟩ (by decide)).2 (by decide)
           rw [h2]
           rfl⟩

/-- The configuration of the concrete grace-period scenario: 5000ms scan
interval, all ports. -/
def graceCfg : ScanCfg := ⟨5000, [], true⟩

/-- The enrichment environment of the concrete grace-period scenario: an
empty process table, no CWD resolution, no usage samples. -/
def graceEnv : ScanEnv := ⟨Except.ok [], fun _ => none, fun _ => none, fun _ => none⟩

/-- One cycle of the concrete grace-period scenario at time `now`, the
system-information source reporting `si`. -/
def graceTick (now : Nat) (si : List SIConn) (st : ScanState) :
    ScanState × List (ScanEvent ServerInfo) :=
  scanStep graceCfg graceEnv false now (Except.ok si) (Except.ok []) st

/-- Tick `n` of the scenario: pid 100 listening on port 3000 is observed. -/
def graceTick0 : ScanState × List (ScanEvent ServerInfo) :=
  graceTick 0 [⟨"tcp", "LISTEN", 3000, 100⟩] ⟨[], []⟩

/-- Tick `n+1`: the key is absent from the raw enumeration. -/
def graceTick1 : ScanState × List (ScanEvent ServerInfo) := graceTick 5000 [] graceTick0.1

/-- Tick `n+2`: still absent (at the edge of the grace period). -/
def graceTick2 : ScanState × List (ScanEvent ServerInfo) := graceTick 10000 [] graceTick1.1

/-- Tick `n+3`: still absent, now beyond the grace period. -/
def graceTick3 : ScanState × List (ScanEvent ServerInfo) := graceTick 15000 [] graceTick2.1

theorem ahkUpsert_events_new (now : Nat) (ps : List AHKProcess)
    (items : List (String × AHKScriptInfo)) :
    ∀ e ∈ (ahkUpsert now ps items).2.2, ∃ r0, e = ScanEvent.new r0 := by
  induction ps generalizing items with
  | nil => intro e he; cases he
  | cons p ps ih =>
    intro e he
    rcases hm : mapLookup items (toString p.pid) with _ | old
    · rw [ahkUpsert, hm] at he
      rcases List.mem_cons.mp he with h1 | h1
      · exact ⟨_, h1⟩
      · exact ih _ e h1
    · rw [ahkUpsert, hm] at he
      exact ih _ e he

theorem updatePayloads_ahkRemoveStale (cfg : ScanCfg) (now : Nat) (keys : List String)
    (items : List (String × AHKScriptInfo)) :
    updatePayloads (ahkRemoveStale cfg now keys items).2 = [] := by
  rw [ahkRemoveStale, updatePayloads, List.filterMap_eq_nil_iff]
  intro e he
  rcases List.mem_map.mp he with ⟨kv, _, hkv2⟩
  subst hkv2
  rfl

/-- Claim C9: every completed cycle fires exactly one `update` event whose
payload is the full current entity set — a permutation of the map's values
— sorted by port ascending for the server scanner and by script name for
the AHK script scanner. -/
theorem updateSnapshot_spec :
    (∀ (cfg : ScanCfg) (env : ScanEnv) (win32 : Bool) (now : Nat)
        (siRes : Except String (List SIConn)) (nsRes : Except String (List NetstatEntry))
        (st : ScanState) (procList : List ProcData), env.procs = Except.ok procList →
        ∃ payload, updatePayloads (scanStep cfg env win32 now siRes nsRes st).2 = [payload] ∧
          payload.Perm ((scanStep cfg env win32 now siRes nsRes st).1.items.map Prod.snd) ∧
          List.Sorted (fun a b : ServerInfo => a.port ≤ b.port) payload) ∧
    (∀ (cfg : ScanCfg) (env : AHKEnv) (win32 : Bool) (now : Nat)
        (items : List (String × AHKScriptInfo)),
        ∃ payload, updatePayloads (ahkScanStep cfg env win32 now items).2 = [payload] ∧
          payload.Perm ((ahkScanStep cfg env win32 now items).1.map Prod.snd) ∧
          List.Sorted (fun a b : AHKScriptInfo => ahkSortKey a ≤ ahkSortKey b) payload) := by
  constructor
  · intro cfg env win32 now siRes nsRes st procList hp
    rw [scanStep, hp]
    dsimp only
    refine ⟨List.insertionSort (fun a b => a.port ≤ b.port)
      (List.map Prod.snd
        (List.map (fun kv => (kv.1, enrichRec env (byPidOf procList) kv.2))
          (removeStale cfg now (upsert now (cycleConns cfg win32 siRes nsRes) st.items).2.1
              (upsert now (cycleConns cfg win32 siRes nsRes) st.items).1).1)), ?_, ?_, ?_⟩
    · rw [List.append_assoc, updatePayloads_append,
        updatePayloads_of_all_new _ (upsert_events_new now _ _),
        updatePayloads_append, updatePayloads_removeStale]
      rfl
    · exact List.perm_insertionSort _ _
    · haveI h1 : IsTotal ServerInfo (fun a b => a.port ≤ b.port) :=
        ⟨fun a b => Nat.le_total a.port b.port⟩
      haveI h2 : IsTrans ServerInfo (fun a b => a.port ≤ b.port) :=
        ⟨fun _ _ _ hab hbc => Nat.le_trans hab hbc⟩
      exact List.sorted_insertionSort _ _
  · intro cfg env win32 now items
    rw [ahkScanStep]
    dsimp only
    refine ⟨List.insertionSort (fun a b => ahkSortKey a ≤ ahkSortKey b)
      (List.map Prod.snd
        (List.map (fun kv => (kv.1, ahkEnrich env kv.2))
          (ahkRemoveStale cfg now (ahkUpsert now (getAHKProcesses win32 env) items).2.1
              (ahkUpsert now (getAHKProcesses win32 env) items).1).1)), ?_, ?_, ?_⟩
    · rw [List.append_assoc, updatePayloads_append,
        updatePayloads_of_all_new _ (ahkUpsert_events_new now _ _),
        updatePayloads_append, updatePayloads_ahkRemoveStale]
      rfl
    · exact List.perm_insertionSort _ _
    · haveI h1 : IsTotal AHKScriptInfo (fun a b => ahkSortKey a ≤ ahkSortKey b) :=
        ⟨fun a b => le_total (ahkSortKey a) (ahkSortKey b)⟩
      haveI h2 : IsTrans AHKScriptInfo (fun a b => ahkSortKey a ≤ ahkSortKey b) :=
        ⟨fun _ _ _ hab hbc => le_trans hab hbc⟩
      exact List.sorted_insertionSort _ _

/-- Witness for claim C9 at a concrete server cycle and a concrete AHK
cycle. -/
theorem updateSnapshot_witness :
    (∃ payload, updatePayloads (scanStep ⟨5000, [], true⟩
        ⟨Except.ok [], fun _ => none, fun _ => none, fun _ => none⟩ true 0
        (Except.ok [⟨"tcp", "LISTEN", 3000, 100⟩]) (Except.ok [⟨8080, 200⟩])
        ⟨[], []⟩).2 = [payload] ∧
      payload.Perm ((scanStep ⟨5000, [], true⟩
        ⟨Except.ok [], fun _ => none, fun _ => none, fun _ => none⟩ true 0
        (Except.ok [⟨"tcp", "LISTEN", 3000, 100⟩]) (Except.ok [⟨8080, 200⟩])
        ⟨[], []⟩).1.items.map Prod.snd) ∧
      List.Sorted (fun a b : ServerInfo => a.port ≤ b.port) payload) ∧
    (∃ payload, updatePayloads (ahkScanStep ⟨5000, [], true⟩
        ⟨Except.ok [], fun _ => none, fun _ => none, fun _ => none⟩ true 0 []).2
        = [payload] ∧
      payload.Perm ((ahkScanStep ⟨5000, [], true⟩
        ⟨Except.ok [], fun _ => none, fun _ => none, fun _ => none⟩ true 0 []).1.map
          Prod.snd) ∧
      List.Sorted (fun a b : AHKScriptInfo => ahkSortKey a ≤ ahkSortKey b) payload) :=
  ⟨updateSnapshot_spec.1 ⟨5000, [], true⟩
      ⟨Except.ok [], fun _ => none, fun _ => none, fun _ => none⟩ true 0
      (Except.ok [⟨"tcp", "LISTEN", 3000, 100⟩]) (Except.ok [⟨8080, 200⟩])
      ⟨[], []⟩ [] rfl,
   updateSnapshot_spec.2 ⟨5000, [], true⟩
      ⟨Except.ok [], fun _ => none, fun _ => none, fun _ => none⟩ true 0 []⟩

/-! ### Supporting lemmas about the AHK reconciliation cycle -/

theorem ahkUpsert_lookup_of_not_key (now : Nat) (ps : List AHKProcess)
    (items : List (String × AHKScriptInfo)) (k : String)
    (h : k ∉ (ahkUpsert now ps items).2.1) :
    mapLookup (ahkUpsert now ps items).1 k = mapLookup items k := by
  induction ps generalizing items with
  | nil => rfl
  | cons p ps ih =>
    rcases hm : mapLookup items (toString p.pid) with _ | old
    · rw [ahkUpsert, hm] at h ⊢
      simp only [List.mem_cons, not_or] at h
      rw [ih _ h.2, mapLookup_set_ne _ _ _ _ h.1]
    · rw [ahkUpsert, hm] at h ⊢
      simp only [List.mem_cons, not_or] at h
      rw [ih _ h.2, mapLookup_set_ne _ _ _ _ h.1]

theorem ahkUpsert_nodup (now : Nat) (ps : List AHKProcess)
    (items : List (String × AHKScriptInfo))
    (h : (keysOf items).Nodup) : (keysOf (ahkUpsert now ps items).1).Nodup := by
  induction ps generalizing items with
  | nil => exact h
  | cons p ps ih =>
    rcases hm : mapLookup items (toString p.pid) with _ | old
    · rw [ahkUpsert, hm]
      exact ih _ (nodup_keysOf_mapSet _ h)
    · rw [ahkUpsert, hm]
      exact ih _ (nodup_keysOf_mapSet _ h)

theorem ahkUpsert_mem_pair (now : Nat) (P : String × AHKScriptInfo → Prop)
    (hup : ∀ (k : String) (r : AHKScriptInfo) (sp sn : Option String), P (k, r) →
      P (k, { r with lastSeen := now, scriptPath := sp, scriptName := sn }))
    (hfresh : ∀ p : AHKProcess,
      P (toString p.pid,
        { key := toString p.pid, pid := p.pid, processName := p.name
          scriptPath := p.scriptPath, scriptName := p.scriptName
          firstSeen := now, lastSeen := now, cpu := none, memory := none })) :
    ∀ (ps : List AHKProcess) (items : List (String × AHKScriptInfo)),
      (∀ kv ∈ items, P kv) → ∀ kv ∈ (ahkUpsert now ps items).1, P kv := by
  intro ps
  induction ps with
  | nil => intro items h kv hkv; exact h kv hkv
  | cons p ps ih =>
    intro items h kv hkv
    rcases hm : mapLookup items (toString p.pid) with _ | old
    · rw [ahkUpsert, hm] at hkv
      refine ih _ ?_ kv hkv
      intro kv' hkv'
      rcases mem_mapSet hkv' with h1 | h1
      · exact h kv' h1
      · rw [h1]; exact hfresh p
    · rw [ahkUpsert, hm] at hkv
      refine ih _ ?_ kv hkv
      intro kv' hkv'
      rcases mem_mapSet hkv' with h1 | h1
      · exact h kv' h1
      · rw [h1]
        exact hup _ _ _ _ (h _ (mem_of_mapLookup hm))

theorem ahkUpsert_lookup_times (now : Nat) (ps : List AHKProcess)
    (items : List (String × AHKScriptInfo)) (k : String) (r : AHKScriptInfo)
    (h : mapLookup items k = some r) :
    ∃ r', mapLookup (ahkUpsert now ps items).1 k = some r' ∧
      r'.firstSeen = r.firstSeen ∧ (r'.lastSeen = r.lastSeen ∨ r'.lastSeen = now) := by
  induction ps generalizing items r with
  | nil => exact ⟨r, h, rfl, Or.inl rfl⟩
  | cons p ps ih =>
    rcases hm : mapLookup items (toString p.pid) with _ | old
    · rw [ahkUpsert, hm]
      by_cases hk : toString p.pid = k
      · subst hk
        rw [hm] at h
        cases h
      · have h' : mapLookup (mapSet items (toString p.pid)
            { key := toString p.pid, pid := p.pid, processName := p.name
              scriptPath := p.scriptPath, scriptName := p.scriptName
              firstSeen := now, lastSeen := now, cpu := none, memory := none }) k
            = some r := by
          rw [mapLookup_set_ne _ _ _ _ (fun hh => hk hh.symm)]
          exact h
        exact ih _ r h'
    · rw [ahkUpsert, hm]
      by_cases hk : toString p.pid = k
      · subst hk
        rw [hm] at h
        injection h with heq
        subst heq
        have h' := mapLookup_set_self items (toString p.pid)
          { old with lastSeen := now, scriptPath := p.scriptPath, scriptName := p.scriptName }
        rcases ih _ _ h' with ⟨r', hr', hf, hl⟩
        refine ⟨r', hr', hf, Or.inr ?_⟩
        rcases hl with h1 | h1
        · exact h1
        · exact h1
      · have h' : mapLookup (mapSet items (toString p.pid)
            { old with lastSeen := now, scriptPath := p.scriptPath, scriptName := p.scriptName }) k
            = some r := by
          rw [mapLookup_set_ne _ _ _ _ (fun hh => hk hh.symm)]
          exact h
        exact ih _ r h'

theorem ahkUpsert_lookup_none (now : Nat) (ps : List AHKProcess)
    (items : List (String × AHKScriptInfo)) (k : String)
    (h : mapLookup items k = none) :
    mapLookup (ahkUpsert now ps items).1 k = none ∨
    ∃ r', mapLookup (ahkUpsert now ps items).1 k = some r' ∧
      r'.firstSeen = now ∧ r'.lastSeen = now := by
  induction ps generalizing items with
  | nil => exact Or.inl h
  | cons p ps ih =>
    rcases hm : mapLookup items (toString p.pid) with _ | old
    · rw [ahkUpsert, hm]
      by_cases hk : toString p.pid = k
      · subst hk
        have h' := mapLookup_set_self items (toString p.pid)
          { key := toString p.pid, pid := p.pid, processName := p.name
            scriptPath := p.scriptPath, scriptName := p.scriptName
            firstSeen := now, lastSeen := now, cpu := none, memory := none }
        rcases ahkUpsert_lookup_times now ps _ _ _ h' with ⟨r', hr', hf, hl⟩
        refine Or.inr ⟨r', hr', hf, ?_⟩
        rcases hl with h1 | h1
        · exact h1
        · exact h1
      · have h' : mapLookup (mapSet items (toString p.pid)
            { key := toString p.pid, pid := p.pid, processName := p.name
              scriptPath := p.scriptPath, scriptName := p.scriptName
              firstSeen := now, lastSeen := now, cpu := none, memory := none }) k
            = none := by
          rw [mapLookup_set_ne _ _ _ _ (fun hh => hk hh.symm)]
          exact h
        exact ih _ h'
    · rw [ahkUpsert, hm]
      by_cases hk : toString p.pid = k
      · subst hk
        rw [hm] at h
        cases h
      · have h' : mapLookup (mapSet items (toString p.pid)
            { old with lastSeen := now, scriptPath := p.scriptPath, scriptName := p.scriptName }) k
            = none := by
          rw [mapLookup_set_ne _ _ _ _ (fun hh => hk hh.symm)]
          exact h
        exact ih _ h'

theorem ahkEnrich_times (env : AHKEnv) (r0 : AHKScriptInfo) :
    (ahkEnrich env r0).firstSeen = r0.firstSeen ∧
    (ahkEnrich env r0).lastSeen = r0.lastSeen ∧
    (ahkEnrich env r0).key = r0.key := by
  rw [ahkEnrich]
  cases env.usage r0.pid with
  | none => exact ⟨rfl, rfl, rfl⟩
  | some u => exact ⟨rfl, rfl, rfl⟩

theorem ahkScanStep_items_keys (cfg : ScanCfg) (env : AHKEnv) (win32 : Bool) (now : Nat)
    (items : List (String × AHKScriptInfo)) :
    keysOf (ahkScanStep cfg env win32 now items).1 =
      keysOf ((ahkUpsert now (getAHKProcesses win32 env) items).1.filter
        (fun kv => !(ahkStaleGone cfg now
          (ahkUpsert now (getAHKProcesses win32 env) items).2.1 kv))) := by
  rw [ahkScanStep]
  dsimp only
  rw [ahkRemoveStale]
  dsimp only
  exact keysOf_map_value _ _

theorem ahkScanStep_lookup_times (cfg : ScanCfg) (env : AHKEnv) (win32 : Bool) (now : Nat)
    (items : List (String × AHKScriptInfo)) (k : String) (r1 : AHKScriptInfo)
    (hnd : (keysOf items).Nodup)
    (h : mapLookup (ahkScanStep cfg env win32 now items).1 k = some r1) :
    ∃ r', mapLookup (ahkUpsert now (getAHKProcesses win32 env) items).1 k = some r' ∧
      r1.firstSeen = r'.firstSeen ∧ r1.lastSeen = r'.lastSeen := by
  have hnd1 : (keysOf (ahkUpsert now (getAHKProcesses win32 env) items).1).Nodup :=
    ahkUpsert_nodup now _ _ hnd
  rw [ahkScanStep] at h
  dsimp only at h
  rw [ahkRemoveStale] at h
  dsimp only at h
  rw [mapLookup_map_value] at h
  rcases Option.map_eq_some'.mp h with ⟨v, hv, hv2⟩
  subst hv2
  rcases ahkEnrich_times env v with ⟨h1, h2, _⟩
  exact ⟨v, (mapLookup_filter_to_base hnd1 hv).1, h1, h2⟩

theorem ahkScanStep_mem_invariant (cfg : ScanCfg) (env : AHKEnv) (win32 : Bool) (now : Nat)
    (items : List (String × AHKScriptInfo)) (P : AHKScriptInfo → Prop)
    (hup : ∀ (r : AHKScriptInfo) (sp sn : Option String),
      P r → P { r with lastSeen := now, scriptPath := sp, scriptName := sn })
    (hfresh : ∀ p : AHKProcess,
      P { key := toString p.pid, pid := p.pid, processName := p.name
          scriptPath := p.scriptPath, scriptName := p.scriptName
          firstSeen := now, lastSeen := now, cpu := none, memory := none })
    (henrich : ∀ r, P r → P (ahkEnrich env r))
    (h : ∀ kv ∈ items, P kv.2) :
    ∀ kv ∈ (ahkScanStep cfg env win32 now items).1, P kv.2 := by
  have h1 : ∀ kv ∈ (ahkUpsert now (getAHKProcesses win32 env) items).1, P kv.2 :=
    ahkUpsert_mem_pair now (fun kv => P kv.2) (fun _ r sp sn hp => hup r sp sn hp)
      (fun p => hfresh p) _ _ h
  intro kv hkv
  rw [ahkScanStep] at hkv
  dsimp only at hkv
  rw [ahkRemoveStale] at hkv
  dsimp only at hkv
  rcases List.mem_map.mp hkv with ⟨kv0, hkv0, hkv0e⟩
  subst hkv0e
  exact henrich _ (h1 kv0 (List.mem_filter.mp hkv0).1)

/-- Count of `stopped` events fired for a given script key. -/
def ahkCountStoppedFor (evs : List (ScanEvent AHKScriptInfo)) (k : String) : Nat :=
  evs.countP (fun e =>
    match e with
    | ScanEvent.stopped r0 => decide (r0.key = k)
    | _ => false)

theorem ahkCountStoppedFor_append (l1 l2 : List (ScanEvent AHKScriptInfo)) (k : String) :
    ahkCountStoppedFor (l1 ++ l2) k = ahkCountStoppedFor l1 k + ahkCountStoppedFor l2 k :=
  List.countP_append _ _ _

theorem ahkCountStoppedFor_of_all_new (evs : List (ScanEvent AHKScriptInfo)) (k : String)
    (h : ∀ e ∈ evs, ∃ r0, e = ScanEvent.new r0) : ahkCountStoppedFor evs k = 0 := by
  rw [ahkCountStoppedFor, List.countP_eq_zero]
  intro e he
  rcases h e he with ⟨r0, hr0⟩
  subst hr0
  simp

theorem ahkCountStoppedFor_stopped_of_no_key (items : List (String × AHKScriptInfo))
    (q : String × AHKScriptInfo → Bool) (k : String)
    (hwf : ∀ kv ∈ items, kv.2.key = kv.1) (habs : k ∉ keysOf items) :
    ahkCountStoppedFor ((items.filter q).map (fun kv => ScanEvent.stopped kv.2)) k = 0 := by
  rw [ahkCountStoppedFor, List.countP_eq_zero]
  intro e he
  rcases List.mem_map.mp he with ⟨kv, hkv, hkv2⟩
  subst hkv2
  have hmem := (List.mem_filter.mp hkv).1
  have hkey := hwf kv hmem
  have hne : kv.2.key ≠ k := by
    rw [hkey]
    intro hh
    exact habs (hh ▸ List.mem_map_of_mem Prod.fst hmem)
  simp [hne]

theorem ahkCountStoppedFor_stopped_unique (items : List (String × AHKScriptInfo))
    (q : String × AHKScriptInfo → Bool) (k : String) (r : AHKScriptInfo)
    (hnd : (keysOf items).Nodup) (hwf : ∀ kv ∈ items, kv.2.key = kv.1)
    (hlk : mapLookup items k = some r) (hkey : r.key = k) (hq : q (k, r) = true) :
    ahkCountStoppedFor ((items.filter q).map (fun kv => ScanEvent.stopped kv.2)) k = 1 := by
  induction items with
  | nil => cases hlk
  | cons kv rest ih =>
    rw [keysOf, List.map_cons, List.nodup_cons] at hnd
    by_cases hk : kv.1 = k
    · rw [mapLookup, if_pos hk] at hlk
      injection hlk with heq
      have hkv : kv = (k, r) := by
        rcases kv with ⟨k1, r1⟩
        simp at hk heq
        rw [hk, heq]
      subst hkv
      rw [List.filter_cons, if_pos hq, List.map_cons, ahkCountStoppedFor,
        List.countP_cons]
      have h0 : ahkCountStoppedFor ((rest.filter q).map (fun kv => ScanEvent.stopped kv.2)) k
          = 0 := by
        refine ahkCountStoppedFor_stopped_of_no_key rest q k
          (fun kv' hkv' => hwf kv' (List.mem_cons_of_mem _ hkv')) ?_
        simpa [keysOf] using hnd.1
      rw [ahkCountStoppedFor] at h0
      rw [h0]
      simp [hkey]
    · rw [mapLookup, if_neg hk] at hlk
      have ih' := ih hnd.2 (fun kv' hkv' => hwf kv' (List.mem_cons_of_mem _ hkv')) hlk
      rw [List.filter_cons]
      by_cases hqkv : q kv
      · rw [if_pos hqkv, List.map_cons, ahkCountStoppedFor, List.countP_cons]
        have hkne : kv.2.key ≠ k := by
          rw [hwf kv (List.mem_cons_self _ _)]; exact hk
        rw [ahkCountStoppedFor] at ih'
        rw [ih']
        simp [hkne]
      · rw [if_neg hqkv]
        exact ih'

theorem ahkCountStoppedFor_single_update (payload : List AHKScriptInfo) (k : String) :
    ahkCountStoppedFor [ScanEvent.update payload] k = 0 := by
  simp [ahkCountStoppedFor]

/-- The AHK environment of the concrete script-scanner scenarios:
`si.processes` reports `ps`, script paths unresolvable, no usage samples. -/
def ahkGraceEnv (ps : List ProcData) : AHKEnv :=
  ⟨Except.ok ps, fun _ => none, fun _ => none, fun _ => none⟩

/-- One cycle of the concrete script-scanner grace-period scenario at time
`now`, the process table reporting `ps`. -/
def ahkGraceTick (now : Nat) (ps : List ProcData)
    (items : List (String × AHKScriptInfo)) :
    List (String × AHKScriptInfo) × List (ScanEvent AHKScriptInfo) :=
  ahkScanStep graceCfg (ahkGraceEnv ps) true now items

/-- Tick `n` of the script scenario: an AutoHotkey process with pid 100 is
observed. -/
def ahkGraceTick0 : List (String × AHKScriptInfo) × List (ScanEvent AHKScriptInfo) :=
  ahkGraceTick 0 [⟨100, "AutoHotkey.exe", "", ""⟩] []

/-- Tick `n+1` of the script scenario: the process is gone. -/
def ahkGraceTick1 : List (String × AHKScriptInfo) × List (ScanEvent AHKScriptInfo) :=
  ahkGraceTick 5000 [] ahkGraceTick0.1

/-- Tick `n+2` of the script scenario: still gone (grace edge). -/
def ahkGraceTick2 : List (String × AHKScriptInfo) × List (ScanEvent AHKScriptInfo) :=
  ahkGraceTick 10000 [] ahkGraceTick1.1

/-- Tick `n+3` of the script scenario: still gone, beyond the grace
period. -/
def ahkGraceTick3 : List (String × AHKScriptInfo) × List (ScanEvent AHKScriptInfo) :=
  ahkGraceTick 15000 [] ahkGraceTick2.1

/-- Claim C10: across one cycle of either reconciliation engine — the
server scanner (`Scanner.scan`) and the AHK script scanner
(`AHKScanner.scan`) — `firstSeen` is assigned exactly once at creation: an
entity first observed this cycle carries `firstSeen = lastSeen = now`, a
surviving entity keeps its `firstSeen` unchanged with its `lastSeen`
either untouched or refreshed to `now`, and `firstSeen ≤ lastSeen ≤ now`
is an invariant of the cycle under a monotone clock (maps with distinct
keys). -/
theorem firstSeen_spec :
    (∀ (cfg : ScanCfg) (env : ScanEnv) (win32 : Bool) (now : Nat)
      (siRes : Except String (List SIConn)) (nsRes : Except String (List NetstatEntry))
      (st : ScanState), (keysOf st.items).Nodup →
      ((∀ (k : String) (r0 r1 : ServerInfo), mapLookup st.items k = some r0 →
          mapLookup (scanStep cfg env win32 now siRes nsRes st).1.items k = some r1 →
          r1.firstSeen = r0.firstSeen ∧
            (r1.lastSeen = r0.lastSeen ∨ r1.lastSeen = now)) ∧
       (∀ (k : String) (r1 : ServerInfo), mapLookup st.items k = none →
          mapLookup (scanStep cfg env win32 now siRes nsRes st).1.items k = some r1 →
          r1.firstSeen = now ∧ r1.lastSeen = now) ∧
       ((∀ kv ∈ st.items, kv.2.firstSeen ≤ kv.2.lastSeen ∧ kv.2.lastSeen ≤ now) →
          ∀ kv ∈ (scanStep cfg env win32 now siRes nsRes st).1.items,
            kv.2.firstSeen ≤ kv.2.lastSeen ∧ kv.2.lastSeen ≤ now))) ∧
    (∀ (cfg : ScanCfg) (env : AHKEnv) (win32 : Bool) (now : Nat)
      (items : List (String × AHKScriptInfo)), (keysOf items).Nodup →
      ((∀ (k : String) (r0 r1 : AHKScriptInfo), mapLookup items k = some r0 →
          mapLookup (ahkScanStep cfg env win32 now items).1 k = some r1 →
          r1.firstSeen = r0.firstSeen ∧
            (r1.lastSeen = r0.lastSeen ∨ r1.lastSeen = now)) ∧
       (∀ (k : String) (r1 : AHKScriptInfo), mapLookup items k = none →
          mapLookup (ahkScanStep cfg env win32 now items).1 k = some r1 →
          r1.firstSeen = now ∧ r1.lastSeen = now) ∧
       ((∀ kv ∈ items, kv.2.firstSeen ≤ kv.2.lastSeen ∧ kv.2.lastSeen ≤ now) →
          ∀ kv ∈ (ahkScanStep cfg env win32 now items).1,
            kv.2.firstSeen ≤ kv.2.lastSeen ∧ kv.2.lastSeen ≤ now))) := by
  constructor
  · intro cfg env win32 now siRes nsRes st hnd
    refine ⟨?_, ?_, ?_⟩
    · intro k r0 r1 h0 h1
      rcases scanStep_lookup_times cfg env win32 now siRes nsRes st k r1 hnd h1
        with ⟨r', hr', hf, hl⟩
      rcases upsert_lookup_some now _ _ k r0 h0 with ⟨r'', hr'', hcase⟩
      rw [hr''] at hr'
      injection hr' with he
      subst he
      rcases hcase with h2 | h2 <;> subst h2
      · exact ⟨hf, Or.inl hl⟩
      · exact ⟨hf, Or.inr hl⟩
    · intro k r1 h0 h1
      rcases scanStep_lookup_times cfg env win32 now siRes nsRes st k r1 hnd h1
        with ⟨r', hr', hf, hl⟩
      rcases upsert_lookup_none now _ _ k h0 with hnone | ⟨r'', hr'', hfs, hls, _, _⟩
      · rw [hnone] at hr'
        cases hr'
      · rw [hr''] at hr'
        injection hr' with he
        subst he
        exact ⟨hf.trans hfs, hl.trans hls⟩
    · intro hinv
      exact scanStep_mem_invariant cfg env win32 now siRes nsRes st
        (fun r => r.firstSeen ≤ r.lastSeen ∧ r.lastSeen ≤ now)
        (fun r hp => ⟨hp.1.trans hp.2, Nat.le_refl now⟩)
        (fun c => ⟨Nat.le_refl now, Nat.le_refl now⟩)
        (fun byPid r hp => by
          rcases enrichRec_times env byPid r with ⟨h1, h2, _, _⟩
          exact ⟨by rw [h1, h2]; exact hp.1, by rw [h2]; exact hp.2⟩)
        hinv
  · intro cfg env win32 now items hnd
    refine ⟨?_, ?_, ?_⟩
    · intro k r0 r1 h0 h1
      rcases ahkScanStep_lookup_times cfg env win32 now items k r1 hnd h1
        with ⟨r', hr', hf, hl⟩
      rcases ahkUpsert_lookup_times now _ _ k r0 h0 with ⟨r'', hr'', hf2, hl2⟩
      rw [hr''] at hr'
      injection hr' with he
      subst he
      refine ⟨hf.trans hf2, ?_⟩
      rcases hl2 with h2 | h2
      · exact Or.inl (hl.trans h2)
      · exact Or.inr (hl.trans h2)
    · intro k r1 h0 h1
      rcases ahkScanStep_lookup_times cfg env win32 now items k r1 hnd h1
        with ⟨r', hr', hf, hl⟩
      rcases ahkUpsert_lookup_none now _ _ k h0 with hnone | ⟨r'', hr'', hfs, hls⟩
      · rw [hnone] at hr'
        cases hr'
      · rw [hr''] at hr'
        injection hr' with he
        subst he
        exact ⟨hf.trans hfs, hl.trans hls⟩
    · intro hinv
      exact ahkScanStep_mem_invariant cfg env win32 now items
        (fun r => r.firstSeen ≤ r.lastSeen ∧ r.lastSeen ≤ now)
        (fun r sp sn hp => ⟨hp.1.trans hp.2, Nat.le_refl now⟩)
        (fun p => ⟨Nat.le_refl now, Nat.le_refl now⟩)
        (fun r hp => by
          rcases ahkEnrich_times env r with ⟨h1, h2, _⟩
          exact ⟨by rw [h1, h2]; exact hp.1, by rw [h2]; exact hp.2⟩)
        hinv

/-- Witness for claim C10: a server entity first observed by the cycle at
`now = 10` and an AHK script entity first observed by its cycle at
`now = 10` are both created with `firstSeen = lastSeen = 10`. -/
theorem firstSeen_witness :
    ((freshRec 10 ⟨"tcp", 3000, 100, "LISTEN"⟩).firstSeen = 10 ∧
     (freshRec 10 ⟨"tcp", 3000, 100, "LISTEN"⟩).lastSeen = 10) ∧
    (({ key := "100", pid := 100, processName := "AutoHotkey.exe"
        scriptPath := none, scriptName := none, firstSeen := 10, lastSeen := 10
        cpu := none, memory := none } : AHKScriptInfo).firstSeen = 10 ∧
     ({ key := "100", pid := 100, processName := "AutoHotkey.exe"
        scriptPath := none, scriptName := none, firstSeen := 10, lastSeen := 10
        cpu := none, memory := none } : AHKScriptInfo).lastSeen = 10) :=
  ⟨(firstSeen_spec.1 ⟨5000, [], true⟩
      ⟨Except.ok [], fun _ => none, fun _ => none, fun _ => none⟩ false 10
      (Except.ok [⟨"tcp", "LISTEN", 3000, 100⟩]) (Except.ok []) ⟨[], []⟩
      (by decide)).2.1 "100:3000" (freshRec 10 ⟨"tcp", 3000, 100, "LISTEN"⟩)
      (by decide) (by decide),
   (firstSeen_spec.2 graceCfg (ahkGraceEnv [⟨100, "AutoHotkey.exe", "", ""⟩]) true 10 []
      (by decide)).2.1 "100"
      { key := "100", pid := 100, processName := "AutoHotkey.exe"
        scriptPath := none, scriptName := none, firstSeen := 10, lastSeen := 10
        cpu := none, memory := none }
      (by decide) (by decide)⟩

/-- Claim C1: in both reconciliation engines — the server scanner
(`Scanner.scan`) and the AHK script scanner (`AHKScanner.scan`) — a
tracked entity whose key is absent from the cycle's raw key set is kept
whenever `now − lastSeen ≤ 2 × scanIntervalMs` and is deleted with exactly
one `stopped` event as soon as a cycle runs with
`now − lastSeen > 2 × scanIntervalMs`; concretely, in each engine an
entity observed at tick `n` (time 0) and absent at ticks `n+1` (5000) and
`n+2` (10000) survives both, and the tick `n+3` cycle (15000) removes it,
firing exactly one `stopped` event. -/
theorem gracePeriod_spec :
    (∀ (cfg : ScanCfg) (env : ScanEnv) (win32 : Bool) (now : Nat)
        (siRes : Except String (List SIConn)) (nsRes : Except String (List NetstatEntry))
        (st : ScanState) (k : String) (r : ServerInfo),
        (keysOf st.items).Nodup →
        (∀ kv ∈ st.items, kv.2.key = kv.1) →
        mapLookup st.items k = some r →
        k ∉ (upsert now (cycleConns cfg win32 siRes nsRes) st.items).2.1 →
        ((now - r.lastSeen ≤ cfg.scanIntervalMs * 2 →
            k ∈ keysOf (scanStep cfg env win32 now siRes nsRes st).1.items) ∧
         (cfg.scanIntervalMs * 2 < now - r.lastSeen →
            k ∉ keysOf (scanStep cfg env win32 now siRes nsRes st).1.items ∧
            countStoppedFor (scanStep cfg env win32 now siRes nsRes st).2 k = 1))) ∧
    (∀ (cfg : ScanCfg) (env : AHKEnv) (win32 : Bool) (now : Nat)
        (items : List (String × AHKScriptInfo)) (k : String) (r : AHKScriptInfo),
        (keysOf items).Nodup →
        (∀ kv ∈ items, kv.2.key = kv.1) →
        mapLookup items k = some r →
        k ∉ (ahkUpsert now (getAHKProcesses win32 env) items).2.1 →
        ((now - r.lastSeen ≤ cfg.scanIntervalMs * 2 →
            k ∈ keysOf (ahkScanStep cfg env win32 now items).1) ∧
         (cfg.scanIntervalMs * 2 < now - r.lastSeen →
            k ∉ keysOf (ahkScanStep cfg env win32 now items).1 ∧
            ahkCountStoppedFor (ahkScanStep cfg env win32 now items).2 k = 1))) ∧
    ("100:3000" ∈ keysOf graceTick1.1.items ∧
     "100:3000" ∈ keysOf graceTick2.1.items ∧
     "100:3000" ∉ keysOf graceTick3.1.items ∧
     countStoppedFor graceTick3.2 "100:3000" = 1) ∧
    ("100" ∈ keysOf ahkGraceTick1.1 ∧
     "100" ∈ keysOf ahkGraceTick2.1 ∧
     "100" ∉ keysOf ahkGraceTick3.1 ∧
     ahkCountStoppedFor ahkGraceTick3.2 "100" = 1) := by
  refine ⟨?_, ?_, ?_, ?_⟩
  · intro cfg env win32 now siRes nsRes st k r hnd hwf h habs
    have hnd1 : (keysOf (upsert now (cycleConns cfg win32 siRes nsRes) st.items).1).Nodup :=
      upsert_nodup now _ _ hnd
    have hwf1 : ∀ kv ∈ (upsert now (cycleConns cfg win32 siRes nsRes) st.items).1,
        kv.2.key = kv.1 :=
      upsert_mem_pair now (fun kv => kv.2.key = kv.1) (fun _ _ hp => hp) (fun _ => rfl)
        _ _ hwf
    have hlk1 : mapLookup (upsert now (cycleConns cfg win32 siRes nsRes) st.items).1 k
        = some r := by
      rw [upsert_lookup_of_not_key now _ _ k habs]
      exact h
    have hkeys : keysOf (scanStep cfg env win32 now siRes nsRes st).1.items
        = keysOf ((upsert now (cycleConns cfg win32 siRes nsRes) st.items).1.filter
            (fun kv => !(staleGone cfg now
              (upsert now (cycleConns cfg win32 siRes nsRes) st.items).2.1 kv))) := by
      rw [scanStep_items_keys, removeStale]
    constructor
    · intro hle
      have hsg : staleGone cfg now
          (upsert now (cycleConns cfg win32 siRes nsRes) st.items).2.1 (k, r) = false := by
        have hno : ¬(cfg.scanIntervalMs * 2 < now - r.lastSeen) := by omega
        simp [staleGone, hno]
      have hkept := mapLookup_filter_of_base (p := fun kv => !(staleGone cfg now
          (upsert now (cycleConns cfg win32 siRes nsRes) st.items).2.1 kv)) hnd1 hlk1
        (by simp [hsg])
      rw [hkeys]
      exact (mapLookup_isSome_iff _ _).mp (by rw [hkept]; rfl)
    · intro hgt
      have hsg : staleGone cfg now
          (upsert now (cycleConns cfg win32 siRes nsRes) st.items).2.1 (k, r) = true := by
        simp [staleGone, habs, hgt]
      constructor
      · rw [hkeys]
        exact not_mem_keysOf_filter hnd1 hlk1 (by simp [hsg])
      · have hkey : r.key = k := hwf (k, r) (mem_of_mapLookup h)
        have hcount := countStoppedFor_stopped_unique
          (upsert now (cycleConns cfg win32 siRes nsRes) st.items).1
          (staleGone cfg now (upsert now (cycleConns cfg win32 siRes nsRes) st.items).2.1)
          k r hnd1 hwf1 hlk1 hkey hsg
        have hnew := countStoppedFor_of_all_new _ k
          (upsert_events_new now (cycleConns cfg win32 siRes nsRes) st.items)
        rw [scanStep]
        rcases hp : env.procs with e | procList <;> dsimp only
        · rw [List.append_assoc, countStoppedFor_append, hnew,
            countStoppedFor_append, removeStale]
          dsimp only
          rw [hcount, countStoppedFor_single_error]
        · rw [List.append_assoc, countStoppedFor_append, hnew,
            countStoppedFor_append, removeStale]
          dsimp only
          rw [hcount, countStoppedFor_single_update]
  · intro cfg env win32 now items k r hnd hwf h habs
    have hnd1 : (keysOf (ahkUpsert now (getAHKProcesses win32 env) items).1).Nodup :=
      ahkUpsert_nodup now _ _ hnd
    have hwf1 : ∀ kv ∈ (ahkUpsert now (getAHKProcesses win32 env) items).1,
        kv.2.key = kv.1 :=
      ahkUpsert_mem_pair now (fun kv => kv.2.key = kv.1) (fun _ _ _ _ hp => hp)
        (fun _ => rfl) _ _ hwf
    have hlk1 : mapLookup (ahkUpsert now (getAHKProcesses win32 env) items).1 k
        = some r := by
      rw [ahkUpsert_lookup_of_not_key now _ _ k habs]
      exact h
    have hkeys : keysOf (ahkScanStep cfg env win32 now items).1
        = keysOf ((ahkUpsert now (getAHKProcesses win32 env) items).1.filter
            (fun kv => !(ahkStaleGone cfg now
              (ahkUpsert now (getAHKProcesses win32 env) items).2.1 kv))) :=
      ahkScanStep_items_keys cfg env win32 now items
    constructor
    · intro hle
      have hsg : ahkStaleGone cfg now
          (ahkUpsert now (getAHKProcesses win32 env) items).2.1 (k, r) = false := by
        have hno : ¬(cfg.scanIntervalMs * 2 < now - r.lastSeen) := by omega
        simp [ahkStaleGone, hno]
      have hkept := mapLookup_filter_of_base (p := fun kv => !(ahkStaleGone cfg now
          (ahkUpsert now (getAHKProcesses win32 env) items).2.1 kv)) hnd1 hlk1
        (by simp [hsg])
      rw [hkeys]
      exact (mapLookup_isSome_iff _ _).mp (by rw [hkept]; rfl)
    · intro hgt
      have hsg : ahkStaleGone cfg now
          (ahkUpsert now (getAHKProcesses win32 env) items).2.1 (k, r) = true := by
        simp [ahkStaleGone, habs, hgt]
      constructor
      · rw [hkeys]
        exact not_mem_keysOf_filter hnd1 hlk1 (by simp [hsg])
      · have hkey : r.key = k := hwf (k, r) (mem_of_mapLookup h)
        have hcount := ahkCountStoppedFor_stopped_unique
          (ahkUpsert now (getAHKProcesses win32 env) items).1
          (ahkStaleGone cfg now (ahkUpsert now (getAHKProcesses win32 env) items).2.1)
          k r hnd1 hwf1 hlk1 hkey hsg
        have hnew := ahkCountStoppedFor_of_all_new _ k
          (ahkUpsert_events_new now (getAHKProcesses win32 env) items)
        rw [ahkScanStep]
        dsimp only
        rw [List.append_assoc, ahkCountStoppedFor_append, hnew,
          ahkCountStoppedFor_append, ahkRemoveStale]
        dsimp only
        rw [hcount, ahkCountStoppedFor_single_update]
  · exact ⟨by decide, by decide, by decide, by decide⟩
  · exact ⟨by decide, by decide, by decide, by decide⟩

/-- Witness for claim C1: the general grace-period statement of each
engine applied at tick `n+3` of its concrete scenario, run from a
single-entity state last seen at time 0. -/
theorem gracePeriod_witness :
    ("100:3000" ∉ keysOf (scanStep graceCfg graceEnv false 15000
        (Except.ok []) (Except.ok [])
        ⟨[("100:3000",
           { key := "100:3000", pid := 100, port := 3000, protocol := "tcp"
             processName := none, command := none, path := none, cwd := none
             firstSeen := 0, lastSeen := 0, url := "http://localhost:3000"
             cpu := none, memory := none, framework := none
             cpuHistory := [], memoryHistory := [] })], []⟩).1.items ∧
     countStoppedFor (scanStep graceCfg graceEnv false 15000
        (Except.ok []) (Except.ok [])
        ⟨[("100:3000",
           { key := "100:3000", pid := 100, port := 3000, protocol := "tcp"
             processName := none, command := none, path := none, cwd := none
             firstSeen := 0, lastSeen := 0, url := "http://localhost:3000"
             cpu := none, memory := none, framework := none
             cpuHistory := [], memoryHistory := [] })], []⟩).2 "100:3000" = 1) ∧
    ("100" ∉ keysOf (ahkScanStep graceCfg (ahkGraceEnv []) true 15000
        [("100",
          { key := "100", pid := 100, processName := "AutoHotkey.exe"
            scriptPath := none, scriptName := none, firstSeen := 0, lastSeen := 0
            cpu := none, memory := none })]).1 ∧
     ahkCountStoppedFor (ahkScanStep graceCfg (ahkGraceEnv []) true 15000
        [("100",
          { key := "100", pid := 100, processName := "AutoHotkey.exe"
            scriptPath := none, scriptName := none, firstSeen := 0, lastSeen := 0
            cpu := none, memory := none })]).2 "100" = 1) :=
  ⟨(gracePeriod_spec.1 graceCfg graceEnv false 15000 (Except.ok []) (Except.ok [])
      ⟨[("100:3000",
         { key := "100:3000", pid := 100, port := 3000, protocol := "tcp"
           processName := none, command := none, path := none, cwd := none
           firstSeen := 0, lastSeen := 0, url := "http://localhost:3000"
           cpu := none, memory := none, framework := none
           cpuHistory := [], memoryHistory := [] })], []⟩
      "100:3000"
      { key := "100:3000", pid := 100, port := 3000, protocol := "tcp"
        processName := none, command := none, path := none, cwd := none
        firstSeen := 0, lastSeen := 0, url := "http://localhost:3000"
        cpu := none, memory := none, framework := none
        cpuHistory := [], memoryHistory := [] }
      (by decide) (by decide) (by decide) (by decide)).2 (by decide),
   (gracePeriod_spec.2.1 graceCfg (ahkGraceEnv []) true 15000
      [("100",
        { key := "100", pid := 100, processName := "AutoHotkey.exe"
          scriptPath := none, scriptName := none, firstSeen := 0, lastSeen := 0
          cpu := none, memory := none })]
      "100"
      { key := "100", pid := 100, processName := "AutoHotkey.exe"
        scriptPath := none, scriptName := none, firstSeen := 0, lastSeen := 0
        cpu := none, memory := none }
      (by decide) (by decide) (by decide) (by decide)).2 (by decide)⟩
